import Mathlib

/-!
# Verification of the Taiko proofs chain-indexer core

Shallow embedding of the indexer subsystem of `taikoxyz/taiko-proofs`
(`IndexerService`, `ProofClassifierService`, `VerifierRegistryService`),
translated from the TypeScript source.  Block numbers, batch ids and
timestamps are modelled as `Nat` (the source uses non-negative `bigint`
block numbers, `uint64` batch ids and millisecond `Date` values);
addresses and hashes are `String`s; nullable database columns are
`Option`s; Prisma tables are lists of rows in insertion order.
-/

namespace TaikoProofs

/-- Proof system tags, from `packages/shared`: `"TEE" | "SP1" | "RISC0"`. -/
inductive ProofSystem where
  | TEE
  | SP1
  | RISC0
deriving DecidableEq, Repr

/-- TEE verifier variants, from `packages/shared`: `"SGX_GETH" | "SGX_RETH"`. -/
inductive TeeVerifier where
  | SGX_GETH
  | SGX_RETH
deriving DecidableEq, Repr

/-- Batch lifecycle status strings `"proposed" | "proven" | "verified"`. -/
inductive Status where
  | proposed
  | proven
  | verified
deriving DecidableEq, Repr

/-- `const ZERO_ADDRESS = "0x0000000000000000000000000000000000000000"`. -/
def ZERO_ADDRESS : String := "0x0000000000000000000000000000000000000000"

/-- `String.prototype.toLowerCase()` on addresses, modelled character-wise. -/
def lowerString (s : String) : String := ⟨s.data.map Char.toLower⟩

/-- A row of the `batches` table (Prisma model `Batch`). -/
structure Batch where
  batchId : Nat
  proposer : String
  proposedAt : Nat
  proposedBlock : Nat
  proposedTxHash : Option String
  status : Status
  isContested : Bool
  isLegacy : Bool
  proofTxHash : Option String
  verifierAddress : Option String
  proofSystems : List ProofSystem
  teeVerifiers : List TeeVerifier
  provenAt : Option Nat
  provenBlock : Option Nat
  transitionParentHash : Option String
  transitionBlockHash : Option String
  transitionStateRoot : Option String
  verifiedAt : Option Nat
  verifiedBlock : Option Nat
  verifiedTxHash : Option String
deriving DecidableEq, Repr

/-- A row of the `batch_proofs` table (Prisma model `BatchProof`); `id` is the
autoincrement primary key, `(batchId, proofTxHash)` is the unique natural key. -/
structure BatchProof where
  id : Nat
  batchId : Nat
  verifierAddress : String
  proofSystems : List ProofSystem
  teeVerifiers : List TeeVerifier
  proofTxHash : String
  provenAt : Nat
  provenBlock : Nat
  transitionParentHash : String
  transitionBlockHash : String
  transitionStateRoot : String
  isVerified : Bool
deriving DecidableEq, Repr

/-- Derived-state store: the `batches` and `batch_proofs` tables, with the
next autoincrement id for `batch_proofs`. Lists are in insertion order. -/
structure Db where
  batches : List Batch
  proofs : List BatchProof
  nextProofId : Nat
deriving DecidableEq, Repr

/-- `prisma.batch.findUnique({ where: { batchId } })`. -/
def findBatch (db : Db) (batchId : Nat) : Option Batch :=
  db.batches.find? (fun b => b.batchId = batchId)

/-- `prisma.batch.update({ where: { batchId }, data })`: rewrite the rows with
the given unique batch id in place. -/
def updateBatch (db : Db) (batchId : Nat) (f : Batch → Batch) : Db :=
  { db with batches := db.batches.map (fun b => if b.batchId = batchId then f b else b) }

/-- `prisma.batch.updateMany({ where, data })`: rewrite every row satisfying
the predicate, in place. -/
def updateBatchesWhere (db : Db) (p : Batch → Bool) (f : Batch → Batch) : Db :=
  { db with batches := db.batches.map (fun b => if p b then f b else b) }

/-- `prisma.batch.create({ data })`: append a new row. -/
def createBatch (db : Db) (b : Batch) : Db :=
  { db with batches := db.batches ++ [b] }

/-- Find a `BatchProof` row by its unique `(batchId, proofTxHash)` key. -/
def findProofByKey (db : Db) (batchId : Nat) (txHash : String) : Option BatchProof :=
  db.proofs.find? (fun r => r.batchId = batchId ∧ r.proofTxHash = txHash)

/-- `prisma.batchProof.update({ where: { id }, data })`. -/
def updateProofById (db : Db) (id : Nat) (f : BatchProof → BatchProof) : Db :=
  { db with proofs := db.proofs.map (fun r => if r.id = id then f r else r) }

/-- In-memory indexer state: the store plus the `lastVerifiedBatchId` cursor
field of `IndexerService`. -/
structure IndexerState where
  db : Db
  lastVerifiedBatchId : Nat
deriving DecidableEq, Repr

/-! ## Decoded events

The source decodes raw logs with `decodeEventLog`; here each handler receives
the already-decoded payload together with the log envelope fields it reads
(`blockNumber`, `transactionHash`).  Block timestamps (`getBlockTimestamp`)
are supplied by a pure oracle `ts : Nat → Nat`. -/

/-- Decoded `BatchProposed` log: `info.proposedIn`, `meta.{batchId, proposedAt,
proposer}` plus the log envelope. -/
structure ProposedEvent where
  batchId : Nat
  proposedAt : Nat
  proposedIn : Nat
  proposer : String
  blockNumber : Option Nat
  transactionHash : Option String
deriving DecidableEq, Repr

/-- One transition triple of a `BatchesProved` log. -/
structure Transition where
  parentHash : String
  blockHash : String
  stateRoot : String
deriving DecidableEq, Repr

/-- Decoded `BatchesProved` log together with the classifier output for its
proof transaction (`classifyProof` runs on RPC data fetched per log; its
result is carried on the decoded event here). -/
structure ProvedEvent where
  verifier : String
  batchIds : List Nat
  transitions : List Transition
  blockNumber : Option Nat
  transactionHash : Option String
  proofSystems : List ProofSystem
  teeVerifiers : List TeeVerifier
deriving DecidableEq, Repr

/-- Decoded `BatchesVerified` log plus envelope. -/
structure VerifiedEvent where
  batchId : Nat
  blockHash : String
  blockNumber : Option Nat
  transactionHash : Option String
deriving DecidableEq, Repr

/-- Decoded `ConflictingProof` log (only `batchId` is read). -/
structure ConflictingEvent where
  batchId : Nat
deriving DecidableEq, Repr

/-! ## Event handlers (from `IndexerService`) -/

/-- `handleBatchProposed`: upsert the batch by id; if the calldata timestamp is
ahead of the containing block timestamp, substitute the block timestamp. -/
def handleBatchProposed (st : IndexerState) (ev : ProposedEvent) (ts : Nat → Nat) :
    IndexerState :=
  let batchId := ev.batchId
  let proposedAt := ev.proposedAt
  let proposedBlock := ev.proposedIn
  let proposer := lowerString ev.proposer
  let proposedTxHash := ev.transactionHash
  let normalizedProposedAt :=
    match ev.blockNumber with
    | some bn => if proposedAt > ts bn then ts bn else proposedAt
    | none => proposedAt
  let db := st.db
  let db :=
    match findBatch db batchId with
    | none =>
        createBatch db
          { batchId := batchId
            proposer := proposer
            proposedAt := normalizedProposedAt
            proposedBlock := proposedBlock
            proposedTxHash := proposedTxHash
            status := Status.proposed
            isContested := false
            isLegacy := false
            proofTxHash := none
            verifierAddress := none
            proofSystems := []
            teeVerifiers := []
            provenAt := none
            provenBlock := none
            transitionParentHash := none
            transitionBlockHash := none
            transitionStateRoot := none
            verifiedAt := none
            verifiedBlock := none
            verifiedTxHash := none }
    | some _ =>
        updateBatch db batchId (fun b =>
          { b with
            proposedAt := normalizedProposedAt
            proposedBlock := proposedBlock
            proposer := proposer
            proposedTxHash :=
              match proposedTxHash with
              | some h => some h
              | none => b.proposedTxHash
            isLegacy := false })
  { st with db := db }

/-- Payload argument of `applyProofToBatch`. -/
structure ProofPayload where
  provenAt : Nat
  provenBlock : Nat
  transitionParentHash : String
  transitionBlockHash : String
  transitionStateRoot : String
deriving DecidableEq, Repr

/-- `applyProofToBatch`: create the batch as `proven` when absent; on a
verified batch only attach provenance when the transition hash matches and no
proof tx is recorded yet; otherwise the earliest proof by `provenAt` wins.
Returns the store and the `matchesVerified` flag. -/
def applyProofToBatch (db : Db) (batchId : Nat) (proofTxHash : String)
    (proofSystems : List ProofSystem) (teeVerifiers : List TeeVerifier)
    (verifierAddress : String) (payload : ProofPayload) : Db × Bool :=
  match findBatch db batchId with
  | none =>
      (createBatch db
        { batchId := batchId
          proposer := ZERO_ADDRESS
          proposedAt := payload.provenAt
          proposedBlock := payload.provenBlock
          proposedTxHash := none
          status := Status.proven
          isContested := false
          isLegacy := false
          proofTxHash := some proofTxHash
          verifierAddress := some verifierAddress
          proofSystems := proofSystems
          teeVerifiers := teeVerifiers
          provenAt := some payload.provenAt
          provenBlock := some payload.provenBlock
          transitionParentHash := some payload.transitionParentHash
          transitionBlockHash := some payload.transitionBlockHash
          transitionStateRoot := some payload.transitionStateRoot
          verifiedAt := none
          verifiedBlock := none
          verifiedTxHash := none }, false)
  | some existing =>
      let matchesVerified :=
        existing.status = Status.verified ∧
          existing.transitionBlockHash = some payload.transitionBlockHash
      if existing.status = Status.verified then
        if matchesVerified ∧ existing.proofTxHash = none then
          (updateBatch db batchId (fun b =>
            { b with
              proofSystems := proofSystems
              teeVerifiers := teeVerifiers
              proofTxHash := some proofTxHash
              verifierAddress := some verifierAddress
              provenAt := some payload.provenAt
              provenBlock := some payload.provenBlock
              transitionParentHash := some payload.transitionParentHash
              transitionBlockHash := some payload.transitionBlockHash
              transitionStateRoot := some payload.transitionStateRoot
              isLegacy := false }), decide matchesVerified)
        else
          (db, decide matchesVerified)
      else
        let shouldUpdateProof :=
          existing.provenAt = none ∨
            (∃ t, existing.provenAt = some t ∧ payload.provenAt < t)
        if shouldUpdateProof then
          (updateBatch db batchId (fun b =>
            { b with
              status := Status.proven
              verifierAddress := some verifierAddress
              proofSystems := proofSystems
              teeVerifiers := teeVerifiers
              proofTxHash := some proofTxHash
              provenAt := some payload.provenAt
              provenBlock := some payload.provenBlock
              transitionParentHash := some payload.transitionParentHash
              transitionBlockHash := some payload.transitionBlockHash
              transitionStateRoot := some payload.transitionStateRoot
              isLegacy := false }), false)
        else
          (db, false)

/-- The `batchProof.upsert` performed for each `(batchId, transition)` pair of
`handleBatchesProved`; `matchesVerified` only toggles `isVerified` to `true`. -/
def upsertBatchProof (db : Db) (batchId : Nat) (txHash : String)
    (verifierAddress : String) (proofSystems : List ProofSystem)
    (teeVerifiers : List TeeVerifier) (payload : ProofPayload)
    (matchesVerified : Bool) : Db :=
  match findProofByKey db batchId txHash with
  | some _ =>
      { db with
        proofs := db.proofs.map (fun r =>
          if r.batchId = batchId ∧ r.proofTxHash = txHash then
            { r with
              proofSystems := proofSystems
              teeVerifiers := teeVerifiers
              provenAt := payload.provenAt
              provenBlock := payload.provenBlock
              transitionParentHash := payload.transitionParentHash
              transitionBlockHash := payload.transitionBlockHash
              transitionStateRoot := payload.transitionStateRoot
              isVerified := if matchesVerified then true else r.isVerified }
          else r) }
  | none =>
      { db with
        proofs := db.proofs ++
          [{ id := db.nextProofId
             batchId := batchId
             verifierAddress := verifierAddress
             proofSystems := proofSystems
             teeVerifiers := teeVerifiers
             proofTxHash := txHash
             provenAt := payload.provenAt
             provenBlock := payload.provenBlock
             transitionParentHash := payload.transitionParentHash
             transitionBlockHash := payload.transitionBlockHash
             transitionStateRoot := payload.transitionStateRoot
             isVerified := matchesVerified }]
        nextProofId := db.nextProofId + 1 }

/-- `handleBatchesProved`: skip logs without block number or tx hash; apply the
proof to each listed batch and upsert the corresponding `BatchProof` row. -/
def handleBatchesProved (st : IndexerState) (ev : ProvedEvent) (ts : Nat → Nat) :
    IndexerState :=
  match ev.blockNumber, ev.transactionHash with
  | some bn, some txHash =>
      let normalizedVerifier := lowerString ev.verifier
      let provenAt := ts bn
      let provenBlock := bn
      let db := (ev.batchIds.zip ev.transitions).foldl
        (fun db pair =>
          let batchId := pair.1
          let transition := pair.2
          let payload : ProofPayload :=
            { provenAt := provenAt
              provenBlock := provenBlock
              transitionParentHash := transition.parentHash
              transitionBlockHash := transition.blockHash
              transitionStateRoot := transition.stateRoot }
          let applied := applyProofToBatch db batchId txHash ev.proofSystems
            ev.teeVerifiers normalizedVerifier payload
          upsertBatchProof applied.1 batchId txHash normalizedVerifier
            ev.proofSystems ev.teeVerifiers payload applied.2)
        st.db
      { st with db := db }
  | _, _ => st

/-- The per-row rewrite of `handleBatchesVerified`'s range `updateMany`:
status `verified`, verification timestamp/block, and the verification tx
hash only when the log carries one. -/
def markVerified (verifiedAt verifiedBlock : Nat) (verifiedTxHash : Option String)
    (b : Batch) : Batch :=
  { b with
    status := Status.verified
    verifiedAt := some verifiedAt
    verifiedBlock := some verifiedBlock
    verifiedTxHash :=
      match verifiedTxHash with
      | some h => some h
      | none => b.verifiedTxHash }

/-- The legacy verified-only row `handleBatchesVerified` creates for an
unseen reported batch id. -/
def legacyVerifiedBatch (batchId verifiedAt verifiedBlock : Nat)
    (verifiedTxHash : Option String) (blockHash : String) : Batch :=
  { batchId := batchId
    proposer := ZERO_ADDRESS
    proposedAt := verifiedAt
    proposedBlock := verifiedBlock
    proposedTxHash := none
    status := Status.verified
    isContested := false
    isLegacy := true
    proofTxHash := none
    verifierAddress := none
    proofSystems := []
    teeVerifiers := []
    provenAt := none
    provenBlock := none
    transitionParentHash := none
    transitionBlockHash := some blockHash
    transitionStateRoot := none
    verifiedAt := some verifiedAt
    verifiedBlock := some verifiedBlock
    verifiedTxHash := verifiedTxHash }

/-- The single-field update recording the reported transition block hash on
an already-existing reported batch. -/
def setTransitionHash (blockHash : String) (b : Batch) : Batch :=
  { b with transitionBlockHash := some blockHash }

/-- The copy of a matching `BatchProof`'s data onto the reported batch at the
end of `handleBatchesVerified`. -/
def copyProofFields (proof : BatchProof) (b : Batch) : Batch :=
  { b with
    proofSystems := proof.proofSystems
    teeVerifiers := proof.teeVerifiers
    proofTxHash := some proof.proofTxHash
    verifierAddress := some proof.verifierAddress
    provenAt := some proof.provenAt
    provenBlock := some proof.provenBlock
    transitionParentHash := some proof.transitionParentHash
    transitionBlockHash := some proof.transitionBlockHash
    transitionStateRoot := some proof.transitionStateRoot
    isLegacy := false }

/-- `handleBatchesVerified`: ignore stale events; synthesize a legacy verified
row for the reported batch id when absent; mark every existing batch row with
id in `(prevLast, newLast]` verified; record the reported transition hash; if
a `BatchProof` matches the reported block hash, flag it verified and copy it
onto the batch; advance the in-memory cursor. -/
def handleBatchesVerified (st : IndexerState) (ev : VerifiedEvent) (ts : Nat → Nat) :
    IndexerState :=
  match ev.blockNumber with
  | none => st
  | some bn =>
      let newLast := ev.batchId
      let prevLast := st.lastVerifiedBatchId
      if newLast ≤ prevLast then st
      else
        let verifiedAt := ts bn
        let verifiedTxHash := ev.transactionHash
        let verifiedBlock := bn
        let rangeStart := prevLast + 1
        let rangeEnd := newLast
        let existing := (findBatch st.db newLast).isSome
        let db :=
          if existing then st.db
          else
            createBatch st.db
              (legacyVerifiedBatch newLast verifiedAt verifiedBlock verifiedTxHash
                ev.blockHash)
        let db := updateBatchesWhere db
          (fun b => rangeStart ≤ b.batchId ∧ b.batchId ≤ rangeEnd)
          (markVerified verifiedAt verifiedBlock verifiedTxHash)
        let db :=
          if existing then
            updateBatch db newLast (setTransitionHash ev.blockHash)
          else db
        let proofHit := db.proofs.find? (fun r =>
          r.batchId = newLast ∧ r.transitionBlockHash = ev.blockHash)
        let db :=
          match proofHit with
          | none => db
          | some proof =>
              updateBatch (updateProofById db proof.id (fun r => { r with isVerified := true }))
                newLast (copyProofFields proof)
        { db := db, lastVerifiedBatchId := newLast }

/-- `handleConflictingProof`: upsert the batch setting `isContested`; a created
placeholder uses the current wall-clock time (`new Date()`), passed as `now`. -/
def handleConflictingProof (st : IndexerState) (ev : ConflictingEvent) (now : Nat) :
    IndexerState :=
  let db := st.db
  let db :=
    match findBatch db ev.batchId with
    | none =>
        createBatch db
          { batchId := ev.batchId
            proposer := ZERO_ADDRESS
            proposedAt := now
            proposedBlock := 0
            proposedTxHash := none
            status := Status.proposed
            isContested := true
            isLegacy := false
            proofTxHash := none
            verifierAddress := none
            proofSystems := []
            teeVerifiers := []
            provenAt := none
            provenBlock := none
            transitionParentHash := none
            transitionBlockHash := none
            transitionStateRoot := none
            verifiedAt := none
            verifiedBlock := none
            verifiedTxHash := none }
    | some _ =>
        updateBatch db ev.batchId (fun b => { b with isContested := true })
  { st with db := db }

/-! ## Rollback and reconciliation (from `IndexerService`) -/

/-- Whether an optional block column lies in `[fromBlock, toBlock]`
(`{ gte: fromBlock, lte: toBlock }`; a NULL column never matches). -/
def inBlockRange (v : Option Nat) (fromBlock toBlock : Nat) : Bool :=
  match v with
  | some b => fromBlock ≤ b ∧ b ≤ toBlock
  | none => false

/-- Insertion-order deduplication, as a JS `Set` built from a spread. -/
def insertUnique (xs : List Nat) (x : Nat) : List Nat :=
  if x ∈ xs then xs else xs ++ [x]

/-- Stable ascending sort by `provenAt`, modelling
`findMany({ orderBy: { provenAt: "asc" } })`. -/
def insertByProvenAt (r : BatchProof) : List BatchProof → List BatchProof
  | [] => [r]
  | x :: xs => if x.provenAt ≤ r.provenAt then x :: insertByProvenAt r xs else r :: x :: xs

/-- Stable insertion sort driver for `insertByProvenAt`. -/
def sortByProvenAt (rs : List BatchProof) : List BatchProof :=
  rs.foldr insertByProvenAt []

/-- `reconcileBatch`: re-derive a batch row from its remaining `BatchProof`
rows (preferring a verified-flagged proof, else the earliest by `provenAt`),
or clear the proof fields when none remain. -/
def reconcileBatch (db : Db) (batchId : Nat) : Db :=
  match findBatch db batchId with
  | none => db
  | some batch =>
      let proofs := sortByProvenAt (db.proofs.filter (fun r => r.batchId = batchId))
      match proofs with
      | [] =>
          updateBatch db batchId (fun b =>
            { b with
              status := if batch.verifiedAt.isSome then Status.verified else Status.proposed
              proofSystems := []
              teeVerifiers := []
              proofTxHash := none
              verifierAddress := none
              provenAt := none
              provenBlock := none
              transitionParentHash := none
              transitionBlockHash := none
              transitionStateRoot := none })
      | first :: _ =>
          let selectedProof := (proofs.find? (fun r => r.isVerified)).getD first
          updateBatch db batchId (fun b =>
            { b with
              status := if batch.verifiedAt.isSome then Status.verified else Status.proven
              proofSystems := selectedProof.proofSystems
              teeVerifiers := selectedProof.teeVerifiers
              proofTxHash := some selectedProof.proofTxHash
              verifierAddress := some selectedProof.verifierAddress
              provenAt := some selectedProof.provenAt
              provenBlock := some selectedProof.provenBlock
              transitionParentHash := some selectedProof.transitionParentHash
              transitionBlockHash := some selectedProof.transitionBlockHash
              transitionStateRoot := some selectedProof.transitionStateRoot })

/-- `rollbackRange`: delete the `BatchProof` rows proven inside the range,
reset proof fields of batches proven inside the range and verification fields
of batches verified inside the range, then reconcile every affected batch. -/
def rollbackRange (db : Db) (fromBlock toBlock : Nat) : Db :=
  let proofsInRange := db.proofs.filter
    (fun r => inBlockRange (some r.provenBlock) fromBlock toBlock)
  let verifiedInRange := db.batches.filter
    (fun b => inBlockRange b.verifiedBlock fromBlock toBlock)
  let affectedBatchIds :=
    (proofsInRange.map (fun r => r.batchId) ++
      verifiedInRange.map (fun b => b.batchId)).foldl insertUnique []
  let db := { db with
    proofs := db.proofs.filter
      (fun r => ¬ inBlockRange (some r.provenBlock) fromBlock toBlock) }
  let db := updateBatchesWhere db
    (fun b => inBlockRange b.provenBlock fromBlock toBlock)
    (fun b =>
      { b with
        status := Status.proposed
        provenAt := none
        provenBlock := none
        proofTxHash := none
        proofSystems := []
        teeVerifiers := []
        verifierAddress := none
        transitionParentHash := none
        transitionBlockHash := none
        transitionStateRoot := none })
  let db := updateBatchesWhere db
    (fun b => inBlockRange b.verifiedBlock fromBlock toBlock)
    (fun b =>
      { b with
        verifiedAt := none
        verifiedBlock := none
        verifiedTxHash := none })
  affectedBatchIds.foldl reconcileBatch db

/-- `resetVerificationCursor`: set the in-memory cursor to the highest batch
id verified at a block strictly before `fromBlock` (`0n` when there is none):
`findFirst({ where: { verifiedBlock: { lt: fromBlock } }, orderBy: { batchId: "desc" } })`. -/
def resetVerificationCursor (st : IndexerState) (fromBlock : Nat) : IndexerState :=
  let candidates := st.db.batches.filter (fun b =>
    match b.verifiedBlock with
    | some v => v < fromBlock
    | none => false)
  { st with lastVerifiedBatchId := candidates.foldl (fun m b => max m b.batchId) 0 }

/-- The four decoded log streams of one chunk, as returned by the adaptive
fetcher for `[fromBlock, toBlock]`. -/
structure RangeLogs where
  proposedLogs : List ProposedEvent
  provedLogs : List ProvedEvent
  verifiedLogs : List VerifiedEvent
  conflictingLogs : List ConflictingEvent
deriving DecidableEq, Repr

/-- `processRange`: rollback, reset the verification cursor, then apply the
four event kinds in the fixed order Proposed, Proved, Verified, Conflicting.
Returns the new state and the processed log count. -/
def processRange (st : IndexerState) (fromBlock toBlock : Nat) (logs : RangeLogs)
    (ts : Nat → Nat) (now : Nat) : IndexerState × Nat :=
  let st := { st with db := rollbackRange st.db fromBlock toBlock }
  let st := resetVerificationCursor st fromBlock
  let st := logs.proposedLogs.foldl (fun st ev => handleBatchProposed st ev ts) st
  let st := logs.provedLogs.foldl (fun st ev => handleBatchesProved st ev ts) st
  let st := logs.verifiedLogs.foldl (fun st ev => handleBatchesVerified st ev ts) st
  let st := logs.conflictingLogs.foldl (fun st ev => handleConflictingProof st ev now) st
  (st, logs.proposedLogs.length + logs.provedLogs.length +
    logs.verifiedLogs.length + logs.conflictingLogs.length)

/-! ## Indexing cursor, lock and run orchestration (from `IndexerService`)

The `indexing_state` table holds one row per chain id; the model carries the
row for the indexed chain as an `Option` (absent until first acquisition).
`NOW()` / `Date.now()` values are supplied as explicit instants. Errors are
modelled by their message strings. -/

/-- A row of the `indexing_state` table. -/
structure IndexingStateRow where
  chainId : Nat
  lastProcessedBlock : Nat
  lockId : Option String
  lockExpiresAt : Option Nat
  lastRunStartedAt : Option Nat
  lastRunFinishedAt : Option Nat
  lastRunStatus : Option String
  lastRunError : Option String
deriving DecidableEq, Repr

/-- `acquireIndexingLock`: the single conditional upsert
`INSERT ... ON CONFLICT (chain_id) DO UPDATE SET ... WHERE lock_expires_at IS
NULL OR lock_expires_at < NOW() RETURNING last_processed_block`.  Returns the
updated row and the returned `last_processed_block` on success, `none` when no
row is returned. -/
def acquireIndexingLock (row : Option IndexingStateRow) (chainId startBlock : Nat)
    (lockId : String) (ttlSeconds now : Nat) :
    Option (IndexingStateRow × Nat) :=
  match row with
  | none =>
      some
        ({ chainId := chainId
           lastProcessedBlock := startBlock
           lockId := some lockId
           lockExpiresAt := some (now + ttlSeconds)
           lastRunStartedAt := some now
           lastRunFinishedAt := none
           lastRunStatus := some "running"
           lastRunError := none }, startBlock)
  | some r =>
      if r.lockExpiresAt = none ∨ (∃ e, r.lockExpiresAt = some e ∧ e < now) then
        some
          ({ r with
             lockId := some lockId
             lockExpiresAt := some (now + ttlSeconds)
             lastRunStartedAt := some now
             lastRunStatus := some "running"
             lastRunError := none }, r.lastProcessedBlock)
      else
        none

/-- `formatError`: `(error.message || error.name).slice(0, 2000)`, modelled on
the message string character list. -/
def formatError (message : String) : String := ⟨message.data.take 2000⟩

/-- `checkpointIndexingProgress`: `updateMany({ where: { chainId, lockId } })`
refreshing the cursor and lock expiry; a zero update count (the row no longer
carries this run's lock token) throws `"Indexer lock lost or expired"`. -/
def checkpointIndexingProgress (row : Option IndexingStateRow) (chainId : Nat)
    (lockId : String) (lastProcessedBlock : Nat) (now ttlSeconds : Nat) :
    Except String IndexingStateRow :=
  match row with
  | some r =>
      if r.chainId = chainId ∧ r.lockId = some lockId then
        Except.ok { r with
          lastProcessedBlock := lastProcessedBlock
          lockExpiresAt := some (now + ttlSeconds * 1000) }
      else
        Except.error "Indexer lock lost or expired"
  | none => Except.error "Indexer lock lost or expired"

/-- `releaseIndexingLock`: `updateMany({ where: { chainId, lockId } })`
clearing the lock and recording the run outcome; a failed run records the
truncated error message. When the row no longer matches, nothing changes. -/
def releaseIndexingLock (row : Option IndexingStateRow) (chainId : Nat)
    (lockId : String) (status : String) (err : String) (finishedAt : Nat) :
    Option IndexingStateRow :=
  let errorMessage := if status = "failed" then some (formatError err) else none
  match row with
  | some r =>
      if r.chainId = chainId ∧ r.lockId = some lockId then
        some { r with
          lockId := none
          lockExpiresAt := none
          lastRunFinishedAt := some finishedAt
          lastRunStatus := some status
          lastRunError := errorMessage }
      else
        some r
  | none => none

/-- `safeBlock` computation at the top of `runIndexing`:
`latestBlock > confirmations ? latestBlock - confirmations : latestBlock`. -/
def safeBlockOf (latestBlock confirmations : Nat) : Nat :=
  if latestBlock > confirmations then latestBlock - confirmations else latestBlock

/-- `fromBlock` computation of `runIndexing`:
`lastProcessedBlock > reorgBuffer ? lastProcessedBlock - reorgBuffer : startBlock`. -/
def fromBlockOf (lastProcessedBlock reorgBuffer startBlock : Nat) : Nat :=
  if lastProcessedBlock > reorgBuffer then lastProcessedBlock - reorgBuffer else startBlock

/-- Environment of one `runIndexing` invocation: configuration, the generated
lock UUID, the wall-clock instants the run observes, the per-range decoded
logs, and the writes other processes perform on the cursor row (`interfere i`
is applied to the row just before the `i`-th checkpoint; `fun _ => id` means
no external writer). -/
structure RunEnv where
  latestBlock : Nat
  confirmations : Nat
  startBlockCfg : Option Nat
  reorgBuffer : Nat
  chunkSize : Nat
  chainId : Nat
  lockUuid : String
  ttlSeconds : Nat
  startTime : Nat
  checkpointTime : Nat → Nat
  finishTime : Nat
  wallNow : Nat
  ts : Nat → Nat
  logsFor : Nat → Nat → RangeLogs
  interfere : Nat → Option IndexingStateRow → Option IndexingStateRow

/-- Whole-system state: the cursor row and the in-memory/derived state. -/
structure SysState where
  row : Option IndexingStateRow
  ixr : IndexerState
deriving Repr

/-- Result record of `runIndexing`: `{ fromBlock, toBlock, processed }`. -/
structure RunResult where
  fromBlock : Nat
  toBlock : Nat
  processed : Nat
deriving DecidableEq, Repr

/-- The chunk boundaries visited by the loop
`for (let cursor = fromBlock; cursor <= safeBlock; cursor += chunkSize)`
(faithful for `chunkSize ≥ 1` and `fromBlock ≤ safeBlock`; the source counts
`totalRanges` by the same division). -/
def chunkList (fromBlock safeBlock chunkSize : Nat) : List (Nat × Nat) :=
  (List.range ((safeBlock - fromBlock) / chunkSize + 1)).map (fun i =>
    let cursor := fromBlock + i * chunkSize
    (cursor, min (cursor + chunkSize - 1) safeBlock))

/-- The chunk loop body of `runIndexing`: process the range, then checkpoint;
a checkpoint error aborts the loop. `i` counts checkpoints for `interfere` and
`checkpointTime`. -/
def runChunks (env : RunEnv) : List (Nat × Nat) → Nat → SysState → Nat →
    SysState × Except String Nat
  | [], _, sys, processed => (sys, Except.ok processed)
  | (c, t) :: rest, i, sys, processed =>
      let pr := processRange sys.ixr c t (env.logsFor c t) env.ts env.wallNow
      let row1 := env.interfere i sys.row
      match checkpointIndexingProgress row1 env.chainId env.lockUuid t
          (env.checkpointTime i) env.ttlSeconds with
      | Except.ok row2 =>
          runChunks env rest (i + 1) { row := some row2, ixr := pr.1 } (processed + pr.2)
      | Except.error e => ({ row := row1, ixr := pr.1 }, Except.error e)

/-- `runIndexing`: compute `safeBlock`, acquire the lock (returning zero
processed events on failure), compute `fromBlock`, process the chunks with a
checkpoint after each, perform the final checkpoint at `safeBlock`, and
release the lock — `success` on the happy path, `failed` with the truncated
error plus a re-raise when anything threw. -/
def runIndexing (env : RunEnv) (sys : SysState) : SysState × Except String RunResult :=
  let safeBlock := safeBlockOf env.latestBlock env.confirmations
  let startBlock := env.startBlockCfg.getD safeBlock
  match acquireIndexingLock sys.row env.chainId startBlock env.lockUuid
      env.ttlSeconds env.startTime with
  | none =>
      (sys, Except.ok { fromBlock := startBlock, toBlock := safeBlock, processed := 0 })
  | some (row1, lastProcessedBlock) =>
      let fromBlock := fromBlockOf lastProcessedBlock env.reorgBuffer startBlock
      if safeBlock ≤ fromBlock then
        let row2 := releaseIndexingLock (some row1) env.chainId env.lockUuid
          "success" "" env.finishTime
        ({ row := row2, ixr := sys.ixr },
          Except.ok { fromBlock := fromBlock, toBlock := safeBlock, processed := 0 })
      else
        let chunks := chunkList fromBlock safeBlock env.chunkSize
        match runChunks env chunks 0 { row := some row1, ixr := sys.ixr } 0 with
        | (sys1, Except.ok processed) =>
            let rowF := env.interfere chunks.length sys1.row
            match checkpointIndexingProgress rowF env.chainId env.lockUuid safeBlock
                (env.checkpointTime chunks.length) env.ttlSeconds with
            | Except.ok row3 =>
                let row4 := releaseIndexingLock (some row3) env.chainId env.lockUuid
                  "success" "" env.finishTime
                ({ row := row4, ixr := sys1.ixr },
                  Except.ok { fromBlock := fromBlock, toBlock := safeBlock, processed := processed })
            | Except.error e =>
                let row4 := releaseIndexingLock rowF env.chainId env.lockUuid
                  "failed" e env.finishTime
                ({ row := row4, ixr := sys1.ixr }, Except.error e)
        | (sys1, Except.error e) =>
            let row4 := releaseIndexingLock sys1.row env.chainId env.lockUuid
              "failed" e env.finishTime
            ({ row := row4, ixr := sys1.ixr }, Except.error e)

/-! ## Adaptive log fetching (`getLogsSafe` / `enqueueRanges`) -/

/-- A work-queue entry `{ from, to, attempts }` of `getLogsSafe`. -/
structure QueueRange where
  fromBlock : Nat
  toBlock : Nat
  attempts : Nat
deriving DecidableEq, Repr

/-- The sub-ranges pushed by `enqueueRanges`' `while (cursor <= to)` loop.
The source never calls it with `maxRange = 0` (that would not terminate);
the model returns `[]` in that dead case to stay total. -/
def splitRanges (fromBlock toBlock maxRange : Nat) : List QueueRange :=
  if maxRange = 0 then []
  else if h : fromBlock > toBlock then []
  else
    let e := min (fromBlock + maxRange - 1) toBlock
    ⟨fromBlock, e, 0⟩ :: splitRanges (e + 1) toBlock maxRange
termination_by toBlock + 1 - fromBlock
decreasing_by
  simp only [not_lt] at h
  have h1 : fromBlock ≤ min (fromBlock + maxRange - 1) toBlock := by
    refine le_min ?_ h
    omega
  omega

/-- `enqueueRanges(queue, from, to, maxRange)`: push the sub-ranges onto the
tail of the queue. -/
def enqueueRanges (queue : List QueueRange) (fromBlock toBlock maxRange : Nat) :
    List QueueRange :=
  queue ++ splitRanges fromBlock toBlock maxRange

/-- Outcome of one `client.getLogs` attempt on a range, as classified by
`isLogRangeError` / `extractLogRangeLimit` / `isRateLimitError`. -/
inductive FetchOutcome where
  | success
  | failure (isRangeError : Bool) (rangeLimitHint : Option Nat) (isRateLimit : Bool)
deriving DecidableEq, Repr

/-- State of `getLogsSafe`'s loop: the pending work queue, the ranges already
fetched into `results`, and the cached `logRangeLimit`. -/
structure FetchState where
  queue : List QueueRange
  fetched : List QueueRange
  logRangeLimit : Option Nat
deriving DecidableEq, Repr

/-- One transition of the `getLogsSafe` loop: still running, finished, or
about to rethrow the error. -/
inductive StepResult where
  | next (s : FetchState)
  | done (s : FetchState)
  | thrown (s : FetchState)
deriving DecidableEq, Repr

/-- The `try`/`catch` body of one `getLogsSafe` iteration: fetch the head
range, and on failure split it (hinted or bisected), retry it after rate
limiting, or rethrow. -/
def getLogsAttempt (oracle : QueueRange → FetchOutcome) (s : FetchState)
    (range : QueueRange) (rest : List QueueRange) : StepResult :=
  match oracle range with
  | FetchOutcome.success =>
      StepResult.next { s with queue := rest, fetched := s.fetched ++ [range] }
  | FetchOutcome.failure isRangeError hint isRateLimit =>
      if isRangeError ∧ range.fromBlock < range.toBlock then
        match hint with
        | some limit =>
            if limit > 0 then
              StepResult.next { s with
                logRangeLimit := some limit
                queue := enqueueRanges rest range.fromBlock range.toBlock limit }
            else
              let mid := (range.fromBlock + range.toBlock) / 2
              StepResult.next { s with
                queue := ⟨range.fromBlock, mid, 0⟩ ::
                  ⟨mid + 1, range.toBlock, 0⟩ :: rest }
        | none =>
            let mid := (range.fromBlock + range.toBlock) / 2
            StepResult.next { s with
              queue := ⟨range.fromBlock, mid, 0⟩ ::
                ⟨mid + 1, range.toBlock, 0⟩ :: rest }
      else if isRateLimit ∧ range.attempts < 6 then
        StepResult.next { s with
          queue := { range with attempts := range.attempts + 1 } :: rest }
      else
        StepResult.thrown s

/-- One iteration of `getLogsSafe`'s `while (queue.length)` loop: pre-split a
range wider than the cached limit, otherwise attempt the fetch. -/
def getLogsStep (oracle : QueueRange → FetchOutcome) (s : FetchState) : StepResult :=
  match s.queue with
  | [] => StepResult.done s
  | range :: rest =>
      let preSplit : Bool :=
        match s.logRangeLimit with
        | some l => range.toBlock - range.fromBlock + 1 > l
        | none => false
      if preSplit then
        match s.logRangeLimit with
        | some l =>
            StepResult.next { s with
              queue := enqueueRanges rest range.fromBlock range.toBlock l }
        | none => StepResult.next s
      else
        getLogsAttempt oracle s range rest

/-- Initial `getLogsSafe` state for `[fromBlock, toBlock]` with the cached
range limit carried over from configuration or a previous fetch. -/
def initFetchState (limit : Option Nat) (fromBlock toBlock : Nat) : FetchState :=
  { queue := [⟨fromBlock, toBlock, 0⟩], fetched := [], logRangeLimit := limit }

/-- Run `n` iterations of the `getLogsSafe` loop (stopping early on
completion or rethrow). -/
def getLogsIter (oracle : QueueRange → FetchOutcome) : Nat → FetchState → FetchState
  | 0, s => s
  | n + 1, s =>
      match getLogsStep oracle s with
      | StepResult.next s' => getLogsIter oracle n s'
      | StepResult.done s' => s'
      | StepResult.thrown s' => s'

/-! ## Proof classification (`VerifierRegistryService` / `ProofClassifierService`) -/

/-- In-memory verifier registry: the `mapping` sets per proof system, the
per-address TEE variant mapping, and the compose-introspection cache. -/
structure VerifierRegistry where
  tee : List String
  sp1 : List String
  risc0 : List String
  teeVariants : List (String × TeeVerifier)
  composeCache : List String
deriving DecidableEq, Repr

/-- `addAddresses`: insert each non-empty address, normalized, into one proof
system's set (JS `Set.add`: no duplicates, insertion order). -/
def addAddressesTo (xs : List String) (addresses : List String) : List String :=
  addresses.foldl (fun xs address =>
    if address = "" then xs
    else if lowerString address ∈ xs then xs
    else xs ++ [lowerString address]) xs

/-- `hasMappingFor`: whether the normalized address is in any system's set. -/
def hasMappingFor (reg : VerifierRegistry) (address : String) : Bool :=
  let normalized := lowerString address
  normalized ∈ reg.tee ∨ normalized ∈ reg.sp1 ∨ normalized ∈ reg.risc0

/-- `systems.add(...)` on the JS `Set`: append if not already present. -/
def addSystem (systems : List ProofSystem) (s : ProofSystem) : List ProofSystem :=
  if s ∈ systems then systems else systems ++ [s]

/-- The per-address body of `getSystemsFor`'s loop: add each system whose set
contains the normalized address. -/
def addSystemsFor (reg : VerifierRegistry) (systems : List ProofSystem)
    (address : String) : List ProofSystem :=
  let normalized := lowerString address
  let systems := if normalized ∈ reg.tee then addSystem systems ProofSystem.TEE else systems
  let systems := if normalized ∈ reg.sp1 then addSystem systems ProofSystem.SP1 else systems
  if normalized ∈ reg.risc0 then addSystem systems ProofSystem.RISC0 else systems

/-- `getSystemsFor`: the duplicate-free union (JS `Set` insertion order) of
the systems mapped to the normalized addresses. -/
def getSystemsFor (reg : VerifierRegistry) (addresses : List String) : List ProofSystem :=
  addresses.foldl (addSystemsFor reg) []

/-- Modelled from the spec: `getTeeVerifiersFor` (called by `classifyProof`
but absent from this snapshot, which predates the TEE-variant registry)
returns the duplicate-free union of the TEE variants mapped to the normalized
addresses, mirroring `getSystemsFor`. -/
def getTeeVerifiersFor (reg : VerifierRegistry) (addresses : List String) :
    List TeeVerifier :=
  addresses.foldl (fun acc address =>
    (reg.teeVariants.filter (fun p => p.1 = lowerString address)).foldl
      (fun acc p => if p.2 ∈ acc then acc else acc ++ [p.2]) acc) []

/-- Answers of the five read-only compose-verifier accessors
(`sgxGethVerifier`, `tdxGethVerifier`, `sgxRethVerifier`, `risc0RethVerifier`,
`sp1RethVerifier`); `none` models the calls failing (not a compose verifier). -/
structure ComposeInfo where
  sgxGethVerifier : String
  tdxGethVerifier : String
  sgxRethVerifier : String
  risc0RethVerifier : String
  sp1RethVerifier : String
deriving DecidableEq, Repr

/-- `hydrateComposeVerifier`: introspect an unknown address at most once per
process lifetime; register discovered sub-verifiers under their systems; cache
the address either way. -/
def hydrateComposeVerifier (reg : VerifierRegistry)
    (chainRead : String → Option ComposeInfo) (verifierAddress : String) :
    VerifierRegistry :=
  let normalized := lowerString verifierAddress
  if normalized ∈ reg.composeCache then reg
  else
    match chainRead verifierAddress with
    | some info =>
        { reg with
          tee := addAddressesTo reg.tee
            [info.sgxGethVerifier, info.tdxGethVerifier, info.sgxRethVerifier]
          risc0 := addAddressesTo reg.risc0 [info.risc0RethVerifier]
          sp1 := addAddressesTo reg.sp1 [info.sp1RethVerifier]
          composeCache := reg.composeCache ++ [normalized] }
    | none => { reg with composeCache := reg.composeCache ++ [normalized] }

/-- The proof payload bytes of a `proveBatches` transaction, represented by
their ABI decode result: `some addrs` when the bytes decode to an array of
`{verifier, proof}` tuples with those verifier fields, `none` when decoding
throws. -/
def ProofData := Option (List String)

/-- `decodeSubVerifiers`: the decoded verifier addresses with falsy (empty)
entries filtered out; a decode failure yields `[]`. -/
def decodeSubVerifiers (proofData : ProofData) : List String :=
  (match proofData with
   | some addrs => addrs
   | none => []).filter (fun a => a ≠ "")

/-- `classifyProof`: hydrate the registry for an unknown top-level verifier,
decode the sub-proof verifier addresses, and classify either the sub-verifier
addresses (when any decoded) or the top-level address alone.  Returns the
classification and the (possibly extended) registry. -/
def classifyProof (reg : VerifierRegistry) (chainRead : String → Option ComposeInfo)
    (verifierAddress : String) (proofData : Option ProofData) :
    (List ProofSystem × List TeeVerifier) × VerifierRegistry :=
  let normalizedVerifier := lowerString verifierAddress
  let reg :=
    if hasMappingFor reg normalizedVerifier then reg
    else hydrateComposeVerifier reg chainRead verifierAddress
  let subVerifiers :=
    match proofData with
    | some d => decodeSubVerifiers d
    | none => []
  let addressesToCheck := if subVerifiers.length ≠ 0 then subVerifiers else [verifierAddress]
  ((getSystemsFor reg addressesToCheck, getTeeVerifiersFor reg addressesToCheck), reg)

/-! ## Claim-specific states, inputs and statement vocabulary -/

/-- Empty derived state with the in-memory cursor at 0. -/
def emptyState : IndexerState :=
  { db := { batches := [], proofs := [], nextProofId := 0 }, lastVerifiedBatchId := 0 }

/-- A `BatchesVerified{batchId: 2}` log at block 95 applied to an empty store
with the cursor at 0. -/
def c1State : IndexerState :=
  handleBatchesVerified emptyState
    { batchId := 2, blockHash := "0xh", blockNumber := some 95,
      transactionHash := some "0xt" }
    (fun _ => 1000)

/-- A batch already carrying a proof with `provenAt = 1` (tx `0xc`). -/
def c2Batch : Batch :=
  { batchId := 5, proposer := "0xp", proposedAt := 0, proposedBlock := 1
    proposedTxHash := none, status := Status.proven, isContested := false
    isLegacy := false, proofTxHash := some "0xc", verifierAddress := some "0xv0"
    proofSystems := [], teeVerifiers := [], provenAt := some 1, provenBlock := some 10
    transitionParentHash := some "p0", transitionBlockHash := some "b0"
    transitionStateRoot := some "s0", verifiedAt := none, verifiedBlock := none
    verifiedTxHash := none }

/-- Store holding only `c2Batch`. -/
def c2Db : Db := { batches := [c2Batch], proofs := [], nextProofId := 0 }

/-- The `T1 = 2` proof payload of the counterexample. -/
def c2Pay1 : ProofPayload :=
  { provenAt := 2, provenBlock := 20, transitionParentHash := "p1"
    transitionBlockHash := "b1", transitionStateRoot := "s1" }

/-- The `T2 = 3` proof payload of the counterexample. -/
def c2Pay2 : ProofPayload :=
  { provenAt := 3, provenBlock := 30, transitionParentHash := "p2"
    transitionBlockHash := "b2", transitionStateRoot := "s2" }

/-- Decoded logs of range `[90, 100]`: `BatchesVerified{batchId: 7}` at block
95 followed by `ConflictingProof{batchId: 6}`. -/
def c3Logs : RangeLogs :=
  { proposedLogs := []
    provedLogs := []
    verifiedLogs := [{ batchId := 7, blockHash := "0xh", blockNumber := some 95
                       transactionHash := some "0xt" }]
    conflictingLogs := [{ batchId := 6 }] }

/-- One application of range `[90, 100]` to the empty store. -/
def c3Once : IndexerState := (processRange emptyState 90 100 c3Logs (fun _ => 1000) 5000).1

/-- The identical range replayed once more (rollback + re-application). -/
def c3Twice : IndexerState := (processRange c3Once 90 100 c3Logs (fun _ => 1000) 5000).1

/-- Run environment for the C5 counterexample: one chunk `[50, 100]`, empty
logs, and a takeover that rewrites the cursor row's lock token to `"other"`
just before the first checkpoint. -/
def c5Env : RunEnv :=
  { latestBlock := 100, confirmations := 0, startBlockCfg := some 0
    reorgBuffer := 0, chunkSize := 100, chainId := 1, lockUuid := "L1"
    ttlSeconds := 30, startTime := 1000, checkpointTime := fun _ => 2000
    finishTime := 3000, wallNow := 0, ts := fun _ => 0
    logsFor := fun _ _ => { proposedLogs := [], provedLogs := []
                            verifiedLogs := [], conflictingLogs := [] }
    interfere := fun _ _ => some
      { chainId := 1, lastProcessedBlock := 50, lockId := some "other"
        lockExpiresAt := some 9999, lastRunStartedAt := some 1500
        lastRunFinishedAt := none, lastRunStatus := some "running"
        lastRunError := none } }

/-- Initial system state for the C5 counterexample: an expired previous lock. -/
def c5Sys : SysState :=
  { row := some
      { chainId := 1, lastProcessedBlock := 50, lockId := none, lockExpiresAt := none
        lastRunStartedAt := none, lastRunFinishedAt := none, lastRunStatus := none
        lastRunError := none }
    ixr := emptyState }

/-- The fields of a `Batch` row that rollback and reconciliation must leave
untouched: identity, proposal data, the contested flag (and the legacy flag,
which they do not touch either). -/
def BatchFrame (b b' : Batch) : Prop :=
  b'.batchId = b.batchId ∧ b'.proposer = b.proposer ∧ b'.proposedAt = b.proposedAt ∧
    b'.proposedBlock = b.proposedBlock ∧ b'.proposedTxHash = b.proposedTxHash ∧
    b'.isContested = b.isContested ∧ b'.isLegacy = b.isLegacy

/-- The batch row reflects the given proof: status `proven` and all proof
fields taken from it. -/
def reflectsProof (b : Batch) (txHash : String) (systems : List ProofSystem)
    (tees : List TeeVerifier) (verifier : String) (pay : ProofPayload) : Prop :=
  b.status = Status.proven ∧ b.proofTxHash = some txHash ∧
    b.verifierAddress = some verifier ∧ b.proofSystems = systems ∧
    b.teeVerifiers = tees ∧ b.provenAt = some pay.provenAt ∧
    b.provenBlock = some pay.provenBlock ∧
    b.transitionParentHash = some pay.transitionParentHash ∧
    b.transitionBlockHash = some pay.transitionBlockHash ∧
    b.transitionStateRoot = some pay.transitionStateRoot

/-- A cursor row taken over by another runner (token `"other"`). -/
def c5TakenRow : IndexingStateRow :=
  { chainId := 1, lastProcessedBlock := 60, lockId := some "other"
    lockExpiresAt := some 9999, lastRunStartedAt := none, lastRunFinishedAt := none
    lastRunStatus := some "running", lastRunError := none }

/-- The proof systems an address is mapped to (after lowercasing), for
stating `getSystemsFor` extensionally. -/
def mappedSystems (reg : VerifierRegistry) (address : String) : List ProofSystem :=
  (if lowerString address ∈ reg.tee then [ProofSystem.TEE] else []) ++
    (if lowerString address ∈ reg.sp1 then [ProofSystem.SP1] else []) ++
    (if lowerString address ∈ reg.risc0 then [ProofSystem.RISC0] else [])

/-- Block `b` lies in the work-queue range. -/
def inQRange (r : QueueRange) (b : Nat) : Prop :=
  r.fromBlock ≤ b ∧ b ≤ r.toBlock

/-- Two queue ranges cover no block in common. -/
def QDisjoint (r r' : QueueRange) : Prop :=
  ∀ b, ¬ (inQRange r b ∧ inQRange r' b)

/-- Some range of the family covers block `b`. -/
def covers (rs : List QueueRange) (b : Nat) : Prop :=
  ∃ r ∈ rs, inQRange r b

/-- The loop invariant of `getLogsSafe` on `[fromBlock, toBlock]`: the pending
queue ranges and the already-fetched ranges are pairwise disjoint and cover
exactly `[fromBlock, toBlock]`; the cached range limit, when set, is positive. -/
def FetchInv (fromBlock toBlock : Nat) (s : FetchState) : Prop :=
  (∀ b, covers (s.queue ++ s.fetched) b ↔ (fromBlock ≤ b ∧ b ≤ toBlock)) ∧
    (s.queue ++ s.fetched).Pairwise QDisjoint ∧
    (∀ l, s.logRangeLimit = some l → 1 ≤ l)

/-- The state carried by a step result. -/
def stateOf : StepResult → FetchState
  | StepResult.next s => s
  | StepResult.done s => s
  | StepResult.thrown s => s

/-! ## Helper lemmas -/

/-- `find?` over a key-preserving row rewrite commutes with the rewrite. -/
theorem find?_map_key (l : List Batch) (g : Batch → Batch)
    (hg : ∀ b, (g b).batchId = b.batchId) (id : Nat) :
    (l.map g).find? (fun b => b.batchId = id) =
      (l.find? (fun b => b.batchId = id)).map g := by
  induction l with
  | nil => rfl
  | cons hd tl ih =>
      simp only [List.map_cons, List.find?_cons]
      by_cases h : hd.batchId = id
      · rw [hg hd] at *
        simp [h]
      · rw [show (decide ((g hd).batchId = id)) = false by simp [hg hd, h],
          show (decide (hd.batchId = id)) = false by simp [h]]
        exact ih

/-- `findBatch` through `updateBatch`. -/
theorem findBatch_updateBatch (db : Db) (bid : Nat) (f : Batch → Batch)
    (hf : ∀ b, (f b).batchId = b.batchId) (id : Nat) :
    findBatch (updateBatch db bid f) id =
      (findBatch db id).map (fun b => if b.batchId = bid then f b else b) := by
  unfold findBatch updateBatch
  exact find?_map_key db.batches _ (fun b => by by_cases h : b.batchId = bid <;> simp [h, hf]) id

/-- `findBatch` through `updateBatchesWhere`. -/
theorem findBatch_updateBatchesWhere (db : Db) (p : Batch → Bool) (f : Batch → Batch)
    (hf : ∀ b, (f b).batchId = b.batchId) (id : Nat) :
    findBatch (updateBatchesWhere db p f) id =
      (findBatch db id).map (fun b => if p b then f b else b) := by
  unfold findBatch updateBatchesWhere
  exact find?_map_key db.batches _ (fun b => by by_cases h : p b <;> simp [h, hf]) id

/-- `findBatch` through `createBatch`. -/
theorem findBatch_createBatch (db : Db) (b : Batch) (id : Nat) :
    findBatch (createBatch db b) id =
      ((findBatch db id).orElse (fun _ => if b.batchId = id then some b else none)) := by
  unfold findBatch createBatch
  simp only [List.find?_append]
  cases h : db.batches.find? (fun x => x.batchId = id) <;>
    by_cases hb : b.batchId = id <;>
      simp [Option.orElse, List.find?, hb]

/-! ## C6 — safe block computation -/

/-- C6 counterexample: with `latestBlock = 3` and `confirmations = 5` the code
yields `safeBlock = 3`, not `max(3 - 5, 0) = 0` as the claim states for every
`latestChainBlock ≤ confirmations`. -/
theorem safeBlock_claim_counterexample :
    (3 : Nat) ≤ 5 ∧ (safeBlockOf 3 5 : Int) ≠ max ((3 : Int) - 5) 0 := by
  constructor
  · decide
  · show ((3 : Nat) : Int) ≠ _
    decide

/-- C6 (amended): `safeBlock` equals `max(latestChainBlock - confirmations, 0)`
only when `latestChainBlock > confirmations`; when
`latestChainBlock ≤ confirmations` it equals `latestChainBlock` itself, not 0. -/
theorem safeBlock_conditional (latest conf : Nat) :
    (conf < latest → (safeBlockOf latest conf : Int) = max ((latest : Int) - conf) 0) ∧
    (latest ≤ conf → safeBlockOf latest conf = latest) := by
  constructor
  · intro h
    have h1 : safeBlockOf latest conf = latest - conf := by
      simp [safeBlockOf, h]
    rw [h1]
    omega
  · intro h
    have h1 : ¬ conf < latest := not_lt.mpr h
    simp [safeBlockOf, h1]

/-- Witness for `safeBlock_conditional` at `(latest, conf) = (7, 2)` and
`(3, 5)`. -/
theorem safeBlock_conditional_witness :
    ((2 : Nat) < 7 ∧ (safeBlockOf 7 2 : Int) = max ((7 : Int) - 2) 0) ∧
      ((3 : Nat) ≤ 5 ∧ safeBlockOf 3 5 = 3) :=
  ⟨⟨by decide, (safeBlock_conditional 7 2).1 (by decide)⟩,
    ⟨by decide, (safeBlock_conditional 3 5).2 (by decide)⟩⟩

/-! ## C7 — starting block computation -/

/-- C7 counterexample: with `lastCheckpoint = 100`, `reorgBuffer = 10`,
`startBlock = 200` the code yields `fromBlock = 90`, which is smaller than the
configured `startBlock` and differs from `max(lastCheckpoint - reorgBuffer,
startBlock) = 200`. -/
theorem fromBlock_claim_counterexample :
    fromBlockOf 100 10 200 < 200 ∧ fromBlockOf 100 10 200 ≠ max (100 - 10) 200 := by
  constructor <;> decide

/-- C7 (amended): `fromBlock` is `lastCheckpoint - reorgBuffer` whenever
`lastCheckpoint > reorgBuffer` (even when that dips below `startBlock`) and
`startBlock` otherwise; it agrees with `max(lastCheckpoint - reorgBuffer,
startBlock)` exactly when `lastCheckpoint ≤ reorgBuffer` or
`lastCheckpoint - reorgBuffer ≥ startBlock`. -/
theorem fromBlock_conditional (lastCheckpoint reorgBuffer startBlock : Nat) :
    (lastCheckpoint ≤ reorgBuffer →
      fromBlockOf lastCheckpoint reorgBuffer startBlock = startBlock) ∧
    (reorgBuffer < lastCheckpoint →
      fromBlockOf lastCheckpoint reorgBuffer startBlock = lastCheckpoint - reorgBuffer) ∧
    (startBlock + reorgBuffer ≤ lastCheckpoint ∨ lastCheckpoint ≤ reorgBuffer →
      fromBlockOf lastCheckpoint reorgBuffer startBlock =
        max (lastCheckpoint - reorgBuffer) startBlock) := by
  unfold fromBlockOf
  refine ⟨fun h => ?_, fun h => ?_, fun h => ?_⟩
  · simp [not_lt.mpr h]
  · simp [h]
  · by_cases h1 : reorgBuffer < lastCheckpoint <;> simp [h1] <;> omega

/-- Witness for `fromBlock_conditional` at concrete inputs. -/
theorem fromBlock_conditional_witness :
    ((5 : Nat) ≤ 9 ∧ fromBlockOf 5 9 42 = 42) ∧
      ((10 : Nat) < 100 ∧ fromBlockOf 100 10 200 = 90) ∧
      ((200 : Nat) + 10 ≤ 500 ∧ fromBlockOf 500 10 200 = max (500 - 10) 200) :=
  ⟨⟨by decide, (fromBlock_conditional 5 9 42).1 (by decide)⟩,
    ⟨by decide, (fromBlock_conditional 100 10 200).2.1 (by decide)⟩,
    ⟨by decide, (fromBlock_conditional 500 10 200).2.2 (Or.inl (by decide))⟩⟩

/-! ## C4 — lock acquisition -/

/-- C4: lock acquisition succeeds exactly when the cursor row is absent,
carries no lock expiry, or carries an already-passed expiry; a successful
acquisition installs an expiry at `now + ttl`, so a second acquisition at any
instant up to that expiry fails; and when acquisition fails, `runIndexing`
returns normally with `processed = 0` and an unchanged state. -/
theorem acquireIndexingLock_exclusive :
    (∀ (row : Option IndexingStateRow) (chainId startBlock : Nat) (lockId : String)
        (ttl now : Nat),
      (acquireIndexingLock row chainId startBlock lockId ttl now).isSome ↔
        (row = none ∨ ∃ r, row = some r ∧
          (r.lockExpiresAt = none ∨ ∃ e, r.lockExpiresAt = some e ∧ e < now))) ∧
    (∀ (row : Option IndexingStateRow) (chainId sb1 sb2 : Nat) (lid1 lid2 : String)
        (ttl1 ttl2 now1 now2 : Nat) (row1 : IndexingStateRow) (lp : Nat),
      acquireIndexingLock row chainId sb1 lid1 ttl1 now1 = some (row1, lp) →
      now2 ≤ now1 + ttl1 →
      acquireIndexingLock (some row1) chainId sb2 lid2 ttl2 now2 = none) ∧
    (∀ (env : RunEnv) (sys : SysState),
      acquireIndexingLock sys.row env.chainId
          (env.startBlockCfg.getD (safeBlockOf env.latestBlock env.confirmations))
          env.lockUuid env.ttlSeconds env.startTime = none →
      runIndexing env sys =
        (sys, Except.ok
          { fromBlock := env.startBlockCfg.getD (safeBlockOf env.latestBlock env.confirmations)
            toBlock := safeBlockOf env.latestBlock env.confirmations
            processed := 0 })) := by
  refine ⟨fun row chainId startBlock lockId ttl now => ?_,
    fun row chainId sb1 sb2 lid1 lid2 ttl1 ttl2 now1 now2 row1 lp hacq hle => ?_,
    fun env sys hfail => ?_⟩
  · cases row with
    | none => simp [acquireIndexingLock]
    | some r =>
        by_cases hc : r.lockExpiresAt = none ∨ ∃ e, r.lockExpiresAt = some e ∧ e < now
        · simp [acquireIndexingLock, hc]
        · simp only [acquireIndexingLock, if_neg hc]
          simp [hc]
  · have hexp : row1.lockExpiresAt = some (now1 + ttl1) := by
      cases row with
      | none =>
          simp only [acquireIndexingLock] at hacq
          cases hacq
          rfl
      | some r =>
          by_cases hc : r.lockExpiresAt = none ∨ ∃ e, r.lockExpiresAt = some e ∧ e < now1
          · simp only [acquireIndexingLock, if_pos hc] at hacq
            cases hacq
            rfl
          · simp [acquireIndexingLock, if_neg hc] at hacq
    have hc2 : ¬ (row1.lockExpiresAt = none ∨ ∃ e, row1.lockExpiresAt = some e ∧ e < now2) := by
      rw [hexp]
      push_neg
      refine ⟨by simp, fun e he => ?_⟩
      cases he
      omega
    simp [acquireIndexingLock, if_neg hc2]
  · simp only [runIndexing, hfail]

/-- Witness for `acquireIndexingLock_exclusive`: a free row is acquired, a
second concurrent acquisition within the TTL fails, and a run hitting a held
lock reports zero processed events. -/
theorem acquireIndexingLock_exclusive_witness :
    ((acquireIndexingLock (some
        { chainId := 1, lastProcessedBlock := 50, lockId := none, lockExpiresAt := none
          lastRunStartedAt := none, lastRunFinishedAt := none, lastRunStatus := none
          lastRunError := none }) 1 0 "L1" 30 100).isSome ↔
      ((some
        { chainId := 1, lastProcessedBlock := 50, lockId := none, lockExpiresAt := none
          lastRunStartedAt := none, lastRunFinishedAt := none, lastRunStatus := none
          lastRunError := none } : Option IndexingStateRow) = none ∨
        ∃ r, (some
          { chainId := 1, lastProcessedBlock := 50, lockId := none, lockExpiresAt := none
            lastRunStartedAt := none, lastRunFinishedAt := none, lastRunStatus := none
            lastRunError := none } : Option IndexingStateRow) = some r ∧
          (r.lockExpiresAt = none ∨ ∃ e, r.lockExpiresAt = some e ∧ e < 100))) ∧
    acquireIndexingLock (some
      { chainId := 1, lastProcessedBlock := 50, lockId := some "L1"
        lockExpiresAt := some 130, lastRunStartedAt := some 100, lastRunFinishedAt := none
        lastRunStatus := some "running", lastRunError := none }) 1 0 "L2" 30 110 = none := by
  constructor
  · exact (acquireIndexingLock_exclusive.1 (some
      { chainId := 1, lastProcessedBlock := 50, lockId := none, lockExpiresAt := none
        lastRunStartedAt := none, lastRunFinishedAt := none, lastRunStatus := none
        lastRunError := none }) 1 0 "L1" 30 100)
  · exact acquireIndexingLock_exclusive.2.1 (some
      { chainId := 1, lastProcessedBlock := 50, lockId := none, lockExpiresAt := none
        lastRunStartedAt := none, lastRunFinishedAt := none, lastRunStatus := none
        lastRunError := none }) 1 0 0 "L1" "L2" 30 30 100 110
      ({ chainId := 1, lastProcessedBlock := 50, lockId := some "L1"
         lockExpiresAt := some 130, lastRunStartedAt := some 100, lastRunFinishedAt := none
         lastRunStatus := some "running", lastRunError := none }) 50 (by decide) (by decide)

/-! ## C1 — verification-range advancement -/

/-- C1 counterexample: applying `BatchesVerified{batchId: 2}` with the cursor
at 0 leaves batch id 1 — which lies in `(0, 2]` and was never observed — with
no row at all: intermediate unobserved ids are not synthesized as legacy
rows (only the reported id 2 is). -/
theorem batchesVerified_gap_counterexample :
    (0 < 1 ∧ 1 ≤ 2) ∧ findBatch c1State.db 1 = none ∧
      (findBatch c1State.db 2).map (fun b => (b.status, b.isLegacy)) =
        some (Status.verified, true) := by
  refine ⟨by decide, by decide, by decide⟩

/-! ## C2 — earliest proof wins -/

/-- C2 counterexample: a batch that is not `verified` but already carries a
proof with `provenAt = 1` keeps that proof after two further proofs with
`provenAt = 2` (tx `0xa`) and `provenAt = 3` (tx `0xb`) are applied in either
order — the row does not end up reflecting the `T1 = 2` proof as the claim
states for every unverified batch. -/
theorem applyProof_earliest_counterexample :
    c2Batch.status ≠ Status.verified ∧ (2 : Nat) < 3 ∧
    (findBatch
      (applyProofToBatch
        (applyProofToBatch c2Db 5 "0xa" [] [] "0xv1" c2Pay1).1
        5 "0xb" [] [] "0xv2" c2Pay2).1 5).map (fun b => b.proofTxHash) =
      some (some "0xc") ∧
    (findBatch
      (applyProofToBatch
        (applyProofToBatch c2Db 5 "0xb" [] [] "0xv2" c2Pay2).1
        5 "0xa" [] [] "0xv1" c2Pay1).1 5).map (fun b => b.proofTxHash) =
      some (some "0xc") := by
  refine ⟨by decide, by decide, by decide, by decide⟩

/-! ## C3 — replay idempotence -/

/-- C3 failing input: replaying the identical `[90, 100]` range does not yield
identical Batch rows.  `ConflictingProof` is handled after `BatchesVerified`,
so the contested placeholder for batch 6 (created after the range `(0, 7]` was
marked) stays `proposed` on the first application but is swept to `verified`
by the replay. -/
theorem processRange_replay_not_idempotent :
    (findBatch c3Once.db 6).map (fun b => (b.status, b.verifiedBlock)) =
        some (Status.proposed, none) ∧
      (findBatch c3Twice.db 6).map (fun b => (b.status, b.verifiedBlock)) =
        some (Status.verified, some 95) ∧
      c3Twice ≠ c3Once := by
  refine ⟨by decide, by decide, by decide⟩

/-! ## C5 — lock loss at a checkpoint -/

/-- C5 counterexample: when the cursor row loses this run's lock token before
a checkpoint, the checkpoint throws and the error is re-raised — but the
subsequent `releaseIndexingLock` call matches nothing (its `where` clause
requires the lost token), so `lastRunStatus` is NOT recorded as `"failed"`:
it stays whatever the takeover wrote (`"running"` here). -/
theorem lockLoss_release_counterexample :
    (runIndexing c5Env c5Sys).2 = Except.error "Indexer lock lost or expired" ∧
      ((runIndexing c5Env c5Sys).1.row.map (fun r => r.lastRunStatus)) =
        some (some "running") ∧
      ((runIndexing c5Env c5Sys).1.row.map (fun r => r.lastRunStatus)) ≠
        some (some "failed") := by
  refine ⟨rfl, by decide, by decide⟩

/-! ## C10 — rollback frame conditions -/

/-- `BatchFrame` is reflexive. -/
theorem batchFrame_refl (b : Batch) : BatchFrame b b :=
  ⟨rfl, rfl, rfl, rfl, rfl, rfl, rfl⟩

/-- `BatchFrame` is transitive. -/
theorem batchFrame_trans {a b c : Batch} (h1 : BatchFrame a b) (h2 : BatchFrame b c) :
    BatchFrame a c := by
  obtain ⟨x1, x2, x3, x4, x5, x6, x7⟩ := h1
  obtain ⟨y1, y2, y3, y4, y5, y6, y7⟩ := h2
  exact ⟨y1.trans x1, y2.trans x2, y3.trans x3, y4.trans x4, y5.trans x5,
    y6.trans x6, y7.trans x7⟩

/-- Pointwise reflexivity of `Forall₂ BatchFrame`. -/
theorem forall₂_frame_refl (l : List Batch) : List.Forall₂ BatchFrame l l := by
  induction l with
  | nil => exact List.Forall₂.nil
  | cons hd tl ih => exact List.Forall₂.cons (batchFrame_refl hd) ih

/-- Transitivity of `Forall₂ BatchFrame`. -/
theorem forall₂_frame_trans {l1 l2 l3 : List Batch}
    (h1 : List.Forall₂ BatchFrame l1 l2) (h2 : List.Forall₂ BatchFrame l2 l3) :
    List.Forall₂ BatchFrame l1 l3 := by
  induction h1 generalizing l3 with
  | nil => cases h2; exact List.Forall₂.nil
  | cons hab h1 ih =>
      cases h2 with
      | cons hbc h2 => exact List.Forall₂.cons (batchFrame_trans hab hbc) (ih h2)

/-- A pointwise frame-preserving rewrite of every row preserves the frame. -/
theorem forall₂_frame_map (l : List Batch) (g : Batch → Batch)
    (hg : ∀ b, BatchFrame b (g b)) :
    List.Forall₂ BatchFrame l (l.map g) := by
  induction l with
  | nil => exact List.Forall₂.nil
  | cons hd tl ih => exact List.Forall₂.cons (hg hd) ih

/-- `updateBatch` with a frame-preserving rewrite preserves proofs and frame. -/
theorem updateBatch_frame (db : Db) (bid : Nat) (f : Batch → Batch)
    (hf : ∀ b, BatchFrame b (f b)) :
    (updateBatch db bid f).proofs = db.proofs ∧
      List.Forall₂ BatchFrame db.batches (updateBatch db bid f).batches := by
  refine ⟨rfl, forall₂_frame_map db.batches _ (fun b => ?_)⟩
  by_cases h : b.batchId = bid
  · simpa [h] using hf b
  · simpa [h] using batchFrame_refl b

/-- `updateBatchesWhere` with a frame-preserving rewrite preserves proofs and
frame. -/
theorem updateBatchesWhere_frame (db : Db) (p : Batch → Bool) (f : Batch → Batch)
    (hf : ∀ b, BatchFrame b (f b)) :
    (updateBatchesWhere db p f).proofs = db.proofs ∧
      List.Forall₂ BatchFrame db.batches (updateBatchesWhere db p f).batches := by
  refine ⟨rfl, forall₂_frame_map db.batches _ (fun b => ?_)⟩
  by_cases h : p b
  · simpa [h] using hf b
  · simpa [h] using batchFrame_refl b

/-- `reconcileBatch` rewrites only non-frame batch fields and never touches
the `batch_proofs` table. -/
theorem reconcileBatch_frame (db : Db) (batchId : Nat) :
    (reconcileBatch db batchId).proofs = db.proofs ∧
      List.Forall₂ BatchFrame db.batches (reconcileBatch db batchId).batches := by
  cases hfind : findBatch db batchId with
  | none =>
      simp only [reconcileBatch, hfind]
      exact ⟨trivial, forall₂_frame_refl db.batches⟩
  | some batch =>
      simp only [reconcileBatch, hfind]
      cases hp : sortByProvenAt (db.proofs.filter (fun r => r.batchId = batchId)) with
      | nil =>
          simp only [hp]
          exact updateBatch_frame db batchId _
            (fun b => ⟨rfl, rfl, rfl, rfl, rfl, rfl, rfl⟩)
      | cons first rest =>
          simp only [hp]
          exact updateBatch_frame db batchId _
            (fun b => ⟨rfl, rfl, rfl, rfl, rfl, rfl, rfl⟩)

/-- Folding `reconcileBatch` over any id list preserves proofs and frame. -/
theorem foldl_reconcile_frame (ids : List Nat) (db : Db) :
    (ids.foldl reconcileBatch db).proofs = db.proofs ∧
      List.Forall₂ BatchFrame db.batches ((ids.foldl reconcileBatch db).batches) := by
  induction ids generalizing db with
  | nil => exact ⟨rfl, forall₂_frame_refl db.batches⟩
  | cons id ids ih =>
      obtain ⟨hp1, hf1⟩ := reconcileBatch_frame db id
      obtain ⟨hp2, hf2⟩ := ih (reconcileBatch db id)
      exact ⟨hp2.trans hp1, forall₂_frame_trans hf1 hf2⟩

/-- C10: `rollbackRange` deletes exactly the `BatchProof` rows with
`provenBlock` in `[fromBlock, toBlock]` and never deletes a `Batch` row; every
`Batch` row keeps its identity and proposal fields (`batchId`, `proposer`,
`proposedAt`, `proposedBlock`, `proposedTxHash`) and its `isContested` (and
`isLegacy`) flags through rollback and the subsequent reconciliation. -/
theorem rollbackRange_frame (db : Db) (fromBlock toBlock : Nat) :
    (rollbackRange db fromBlock toBlock).proofs =
      db.proofs.filter (fun r => ¬ inBlockRange (some r.provenBlock) fromBlock toBlock) ∧
      List.Forall₂ BatchFrame db.batches (rollbackRange db fromBlock toBlock).batches := by
  unfold rollbackRange
  refine ⟨?_, ?_⟩
  · rw [(foldl_reconcile_frame _ _).1]
    rfl
  · refine forall₂_frame_trans ?_ (foldl_reconcile_frame _ _).2
    refine forall₂_frame_trans ?_ ((updateBatchesWhere_frame _ _ _ (fun b => ?_)).2)
    · exact (updateBatchesWhere_frame _ _ _
        (fun b => (⟨rfl, rfl, rfl, rfl, rfl, rfl, rfl⟩ :
          BatchFrame b { b with
            status := Status.proposed
            provenAt := none
            provenBlock := none
            proofTxHash := none
            proofSystems := []
            teeVerifiers := []
            verifierAddress := none
            transitionParentHash := none
            transitionBlockHash := none
            transitionStateRoot := none }))).2
    · exact ⟨rfl, rfl, rfl, rfl, rfl, rfl, rfl⟩

/-! ## C2 (amended) — earliest proof wins for batches without an earlier proof -/

/-- On an existing unverified batch, a proof earlier than the stored one (or a
first proof) rewrites the row. -/
theorem applyProof_unverified_update (db : Db) (batchId : Nat) (b : Batch)
    (tx : String) (sys : List ProofSystem) (tees : List TeeVerifier) (v : String)
    (pay : ProofPayload)
    (hfind : findBatch db batchId = some b)
    (hb : ¬ b.status = Status.verified)
    (hupd : b.provenAt = none ∨ ∃ t, b.provenAt = some t ∧ pay.provenAt < t) :
    applyProofToBatch db batchId tx sys tees v pay =
      (updateBatch db batchId (fun x =>
        { x with
          status := Status.proven
          verifierAddress := some v
          proofSystems := sys
          teeVerifiers := tees
          proofTxHash := some tx
          provenAt := some pay.provenAt
          provenBlock := some pay.provenBlock
          transitionParentHash := some pay.transitionParentHash
          transitionBlockHash := some pay.transitionBlockHash
          transitionStateRoot := some pay.transitionStateRoot
          isLegacy := false }), false) := by
  simp only [applyProofToBatch, hfind, if_neg hb, if_pos hupd]

/-- On an existing unverified batch, a proof not earlier than the stored one
is ignored. -/
theorem applyProof_unverified_skip (db : Db) (batchId : Nat) (b : Batch)
    (tx : String) (sys : List ProofSystem) (tees : List TeeVerifier) (v : String)
    (pay : ProofPayload)
    (hfind : findBatch db batchId = some b)
    (hb : ¬ b.status = Status.verified)
    (hnoupd : ¬ (b.provenAt = none ∨ ∃ t, b.provenAt = some t ∧ pay.provenAt < t)) :
    applyProofToBatch db batchId tx sys tees v pay = (db, false) := by
  simp only [applyProofToBatch, hfind, if_neg hb, if_neg hnoupd]

/-- C2 (amended): for a batch that exists, is not `verified`, and whose
stored `provenAt` is null or later than `T1`, applying a `T1` proof and a
`T2` proof with `T1 < T2` in either order leaves the Batch row reflecting the
`T1` proof in full (tx hash, verifier, systems, variants, transition triple,
provenAt, provenBlock) with status `proven`. -/
theorem applyProof_earliest_wins (db : Db) (batchId : Nat) (b : Batch)
    (txA txB : String) (sysA sysB : List ProofSystem)
    (teesA teesB : List TeeVerifier) (vA vB : String) (payA payB : ProofPayload)
    (hfind : findBatch db batchId = some b)
    (hstatus : ¬ b.status = Status.verified)
    (hprior : b.provenAt = none ∨ ∃ t, b.provenAt = some t ∧ payA.provenAt < t)
    (horder : payA.provenAt < payB.provenAt)
    (hdistinct : txA ≠ txB) :
    (∃ b2, findBatch (applyProofToBatch
        (applyProofToBatch db batchId txA sysA teesA vA payA).1
        batchId txB sysB teesB vB payB).1 batchId = some b2 ∧
      reflectsProof b2 txA sysA teesA vA payA) ∧
    (∃ b2, findBatch (applyProofToBatch
        (applyProofToBatch db batchId txB sysB teesB vB payB).1
        batchId txA sysA teesA vA payA).1 batchId = some b2 ∧
      reflectsProof b2 txA sysA teesA vA payA) := by
  have hbid : b.batchId = batchId := by
    have h := List.find?_some hfind
    simpa using h
  -- the rewrite applied by an accepted `T1` proof
  set gA : Batch → Batch := fun x =>
    { x with
      status := Status.proven
      verifierAddress := some vA
      proofSystems := sysA
      teeVerifiers := teesA
      proofTxHash := some txA
      provenAt := some payA.provenAt
      provenBlock := some payA.provenBlock
      transitionParentHash := some payA.transitionParentHash
      transitionBlockHash := some payA.transitionBlockHash
      transitionStateRoot := some payA.transitionStateRoot
      isLegacy := false } with hgA
  set gB : Batch → Batch := fun x =>
    { x with
      status := Status.proven
      verifierAddress := some vB
      proofSystems := sysB
      teeVerifiers := teesB
      proofTxHash := some txB
      provenAt := some payB.provenAt
      provenBlock := some payB.provenBlock
      transitionParentHash := some payB.transitionParentHash
      transitionBlockHash := some payB.transitionBlockHash
      transitionStateRoot := some payB.transitionStateRoot
      isLegacy := false } with hgB
  have hgA_id : ∀ x, (gA x).batchId = x.batchId := fun x => rfl
  have hgB_id : ∀ x, (gB x).batchId = x.batchId := fun x => rfl
  have hreflA : ∀ x, reflectsProof (gA x) txA sysA teesA vA payA := fun x =>
    ⟨rfl, rfl, rfl, rfl, rfl, rfl, rfl, rfl, rfl, rfl⟩
  have findA : ∀ db2 x, findBatch db2 batchId = some x →
      findBatch (updateBatch db2 batchId gA) batchId = some (gA x) := by
    intro db2 x hx
    rw [findBatch_updateBatch db2 batchId gA hgA_id, hx]
    have hxid : x.batchId = batchId := by simpa using List.find?_some hx
    simp [hxid]
  have findB : ∀ db2 x, findBatch db2 batchId = some x →
      findBatch (updateBatch db2 batchId gB) batchId = some (gB x) := by
    intro db2 x hx
    rw [findBatch_updateBatch db2 batchId gB hgB_id, hx]
    have hxid : x.batchId = batchId := by simpa using List.find?_some hx
    simp [hxid]
  constructor
  · -- order: T1 first, then T2
    have h1 := applyProof_unverified_update db batchId b txA sysA teesA vA payA
      hfind hstatus hprior
    have hfind1 : findBatch (applyProofToBatch db batchId txA sysA teesA vA payA).1
        batchId = some (gA b) := by
      rw [h1]
      exact findA db b hfind
    have h2 := applyProof_unverified_skip
      (applyProofToBatch db batchId txA sysA teesA vA payA).1 batchId (gA b)
      txB sysB teesB vB payB hfind1 (by simp [hgA]) ?hno
    case hno =>
      push_neg
      refine ⟨by simp [hgA], fun t ht => ?_⟩
      have : t = payA.provenAt := by
        have : (gA b).provenAt = some payA.provenAt := rfl
        rw [this] at ht
        exact (Option.some_injective _ ht).symm
      omega
    refine ⟨gA b, ?_, hreflA b⟩
    rw [h2]
    exact hfind1
  · -- order: T2 first, then T1
    rcases hprior with hnone | ⟨t, ht, hlt⟩
    · -- no stored proof: T2 is accepted, then T1 supersedes it
      have h1 := applyProof_unverified_update db batchId b txB sysB teesB vB payB
        hfind hstatus (Or.inl hnone)
      have hfind1 : findBatch (applyProofToBatch db batchId txB sysB teesB vB payB).1
          batchId = some (gB b) := by
        rw [h1]
        exact findB db b hfind
      have h2 := applyProof_unverified_update
        (applyProofToBatch db batchId txB sysB teesB vB payB).1 batchId (gB b)
        txA sysA teesA vA payA hfind1 (by simp [hgB])
        (Or.inr ⟨payB.provenAt, rfl, horder⟩)
      refine ⟨gA (gB b), ?_, hreflA (gB b)⟩
      rw [h2]
      exact findA _ (gB b) hfind1
    · by_cases hbt : payB.provenAt < t
      · -- T2 also earlier than the stored proof: accepted, then T1 supersedes
        have h1 := applyProof_unverified_update db batchId b txB sysB teesB vB payB
          hfind hstatus (Or.inr ⟨t, ht, hbt⟩)
        have hfind1 : findBatch (applyProofToBatch db batchId txB sysB teesB vB payB).1
            batchId = some (gB b) := by
          rw [h1]
          exact findB db b hfind
        have h2 := applyProof_unverified_update
          (applyProofToBatch db batchId txB sysB teesB vB payB).1 batchId (gB b)
          txA sysA teesA vA payA hfind1 (by simp [hgB])
          (Or.inr ⟨payB.provenAt, rfl, horder⟩)
        refine ⟨gA (gB b), ?_, hreflA (gB b)⟩
        rw [h2]
        exact findA _ (gB b) hfind1
      · -- T2 not earlier than the stored proof: skipped, then T1 accepted
        have h1 := applyProof_unverified_skip db batchId b txB sysB teesB vB payB
          hfind hstatus ?hno2
        case hno2 =>
          push_neg
          refine ⟨by simp [ht], fun u hu => ?_⟩
          rw [ht] at hu
          have : u = t := (Option.some_injective _ hu).symm
          omega
        have h2 := applyProof_unverified_update
          (applyProofToBatch db batchId txB sysB teesB vB payB).1 batchId b
          txA sysA teesA vA payA (by rw [h1]; exact hfind) hstatus
          (Or.inr ⟨t, ht, hlt⟩)
        refine ⟨gA b, ?_, hreflA b⟩
        rw [h2, h1]
        exact findA db b hfind

/-- Witness for `applyProof_earliest_wins`: a proposed batch with no stored
proof receives proofs with `provenAt` 3 then 2, in both orders, and reflects
the earlier one. -/
theorem applyProof_earliest_wins_witness :
    (∃ b2, findBatch (applyProofToBatch
        (applyProofToBatch
          { batches := [{ batchId := 9, proposer := "0xp", proposedAt := 0
                          proposedBlock := 1, proposedTxHash := none
                          status := Status.proposed, isContested := false
                          isLegacy := false, proofTxHash := none
                          verifierAddress := none, proofSystems := []
                          teeVerifiers := [], provenAt := none, provenBlock := none
                          transitionParentHash := none, transitionBlockHash := none
                          transitionStateRoot := none, verifiedAt := none
                          verifiedBlock := none, verifiedTxHash := none }]
            proofs := [], nextProofId := 0 }
          9 "0xa" [ProofSystem.SP1] [] "0xv1"
          { provenAt := 2, provenBlock := 20, transitionParentHash := "p1"
            transitionBlockHash := "b1", transitionStateRoot := "s1" }).1
        9 "0xb" [ProofSystem.TEE] [] "0xv2"
        { provenAt := 3, provenBlock := 30, transitionParentHash := "p2"
          transitionBlockHash := "b2", transitionStateRoot := "s2" }).1 9 = some b2 ∧
      reflectsProof b2 "0xa" [ProofSystem.SP1] [] "0xv1"
        { provenAt := 2, provenBlock := 20, transitionParentHash := "p1"
          transitionBlockHash := "b1", transitionStateRoot := "s1" }) ∧
    (∃ b2, findBatch (applyProofToBatch
        (applyProofToBatch
          { batches := [{ batchId := 9, proposer := "0xp", proposedAt := 0
                          proposedBlock := 1, proposedTxHash := none
                          status := Status.proposed, isContested := false
                          isLegacy := false, proofTxHash := none
                          verifierAddress := none, proofSystems := []
                          teeVerifiers := [], provenAt := none, provenBlock := none
                          transitionParentHash := none, transitionBlockHash := none
                          transitionStateRoot := none, verifiedAt := none
                          verifiedBlock := none, verifiedTxHash := none }]
            proofs := [], nextProofId := 0 }
          9 "0xb" [ProofSystem.TEE] [] "0xv2"
          { provenAt := 3, provenBlock := 30, transitionParentHash := "p2"
            transitionBlockHash := "b2", transitionStateRoot := "s2" }).1
        9 "0xa" [ProofSystem.SP1] [] "0xv1"
        { provenAt := 2, provenBlock := 20, transitionParentHash := "p1"
          transitionBlockHash := "b1", transitionStateRoot := "s1" }).1 9 = some b2 ∧
      reflectsProof b2 "0xa" [ProofSystem.SP1] [] "0xv1"
        { provenAt := 2, provenBlock := 20, transitionParentHash := "p1"
          transitionBlockHash := "b1", transitionStateRoot := "s1" }) :=
  applyProof_earliest_wins _ 9 _ "0xa" "0xb" [ProofSystem.SP1] [ProofSystem.TEE]
    [] [] "0xv1" "0xv2" _ _ rfl (by decide) (Or.inl rfl) (by decide) (by decide)

/-! ## C1 (amended) — verification-range advancement over existing rows -/

/-- A found batch row carries the looked-up id. -/
theorem findBatch_batchId {db : Db} {id : Nat} {b : Batch}
    (h : findBatch db id = some b) : b.batchId = id := by
  simpa using List.find?_some h

/-- `findBatch` through the final (proof-copying) stage of
`handleBatchesVerified`. -/
theorem findBatch_hbvFinal (db : Db) (newLast : Nat) (hit : Option BatchProof)
    (id : Nat) :
    findBatch
      (match hit with
       | none => db
       | some proof =>
           updateBatch (updateProofById db proof.id (fun r => { r with isVerified := true }))
             newLast (copyProofFields proof)) id =
      (match hit with
       | none => findBatch db id
       | some proof =>
           (findBatch db id).map
             (fun b => if b.batchId = newLast then copyProofFields proof b else b)) := by
  cases hit with
  | none => rfl
  | some proof =>
      exact findBatch_updateBatch
        (updateProofById db proof.id (fun r => { r with isVerified := true }))
        newLast (copyProofFields proof) (fun b => rfl) id

/-- `updateBatch` leaves the `batch_proofs` table unchanged. -/
theorem updateBatch_proofs (db : Db) (bid : Nat) (f : Batch → Batch) :
    (updateBatch db bid f).proofs = db.proofs := rfl

/-- `updateBatchesWhere` leaves the `batch_proofs` table unchanged. -/
theorem updateBatchesWhere_proofs (db : Db) (p : Batch → Bool) (f : Batch → Batch) :
    (updateBatchesWhere db p f).proofs = db.proofs := rfl

/-- `createBatch` leaves the `batch_proofs` table unchanged. -/
theorem createBatch_proofs (db : Db) (b : Batch) :
    (createBatch db b).proofs = db.proofs := rfl

/-- `updateProofById` leaves the `batches` table unchanged. -/
theorem findBatch_updateProofById (db : Db) (i : Nat) (f : BatchProof → BatchProof)
    (id : Nat) : findBatch (updateProofById db i f) id = findBatch db id := rfl

/-- C1 (amended): applying `BatchesVerified{batchId: N}` while the in-memory
cursor holds `P < N` (a) marks every batch id in `(P, N]` that has a row with
status `verified` carrying the event's verification timestamp and block, (b)
creates no row for any other id that had none — unobserved intermediate ids
are NOT synthesized — (c) synthesizes a legacy verified-only row for the
reported id `N` itself when it had none (and no stored proof matches the
reported block hash), and (d) advances the cursor to `N`. -/
theorem handleBatchesVerified_range (st : IndexerState) (ev : VerifiedEvent)
    (ts : Nat → Nat) (bn : Nat)
    (hbn : ev.blockNumber = some bn)
    (hadv : st.lastVerifiedBatchId < ev.batchId) :
    (∀ id b0, st.lastVerifiedBatchId < id → id ≤ ev.batchId →
      findBatch st.db id = some b0 →
      ∃ b1, findBatch (handleBatchesVerified st ev ts).db id = some b1 ∧
        b1.status = Status.verified ∧ b1.verifiedAt = some (ts bn) ∧
        b1.verifiedBlock = some bn) ∧
    (∀ id, id ≠ ev.batchId → findBatch st.db id = none →
      findBatch (handleBatchesVerified st ev ts).db id = none) ∧
    (findBatch st.db ev.batchId = none →
      (∀ p ∈ st.db.proofs,
        ¬ (p.batchId = ev.batchId ∧ p.transitionBlockHash = ev.blockHash)) →
      ∃ b1, findBatch (handleBatchesVerified st ev ts).db ev.batchId = some b1 ∧
        b1.status = Status.verified ∧ b1.isLegacy = true ∧
        b1.proposer = ZERO_ADDRESS ∧ b1.proofTxHash = none ∧
        b1.verifiedAt = some (ts bn) ∧ b1.verifiedBlock = some bn ∧
        b1.transitionBlockHash = some ev.blockHash) ∧
    (handleBatchesVerified st ev ts).lastVerifiedBatchId = ev.batchId := by
  have hnotle : ¬ ev.batchId ≤ st.lastVerifiedBatchId := not_le.mpr hadv
  cases hex : findBatch st.db ev.batchId with
  | some bEx =>
      simp only [handleBatchesVerified, hbn, if_neg hnotle, hex, Option.isSome_some,
        if_true, updateBatch_proofs, updateBatchesWhere_proofs, createBatch_proofs]
      cases hhit : List.find?
          (fun r => decide (r.batchId = ev.batchId ∧ r.transitionBlockHash = ev.blockHash))
          st.db.proofs with
      | none =>
          simp only [hhit]
          refine ⟨?_, ?_, ?_, by trivial⟩
          · intro id b0 hlo hhi hfind0
            have hb0id : b0.batchId = id := findBatch_batchId hfind0
            rw [findBatch_updateBatch _ _ (setTransitionHash ev.blockHash) (fun b => rfl) id,
              findBatch_updateBatchesWhere _ _ (markVerified (ts bn) bn ev.transactionHash)
                (fun b => rfl) id, hfind0]
            have hpR : decide (st.lastVerifiedBatchId + 1 ≤ b0.batchId ∧
                b0.batchId ≤ ev.batchId) = true := by
              rw [decide_eq_true_eq, hb0id]
              exact ⟨hlo, hhi⟩
            simp only [Option.map_some', hpR, if_true]
            by_cases hidN : (markVerified (ts bn) bn ev.transactionHash b0).batchId =
                ev.batchId
            · rw [if_pos hidN]
              exact ⟨_, rfl, rfl, rfl, rfl⟩
            · rw [if_neg hidN]
              exact ⟨_, rfl, rfl, rfl, rfl⟩
          · intro id hidN hfind0
            rw [findBatch_updateBatch _ _ (setTransitionHash ev.blockHash) (fun b => rfl) id,
              findBatch_updateBatchesWhere _ _ (markVerified (ts bn) bn ev.transactionHash)
                (fun b => rfl) id, hfind0]
            rfl
          · intro habs
            exact Option.noConfusion habs
      | some proof =>
          simp only [hhit]
          refine ⟨?_, ?_, ?_, by trivial⟩
          · intro id b0 hlo hhi hfind0
            have hb0id : b0.batchId = id := findBatch_batchId hfind0
            rw [findBatch_updateBatch _ _ (copyProofFields proof) (fun b => rfl) id,
              findBatch_updateProofById,
              findBatch_updateBatch _ _ (setTransitionHash ev.blockHash) (fun b => rfl) id,
              findBatch_updateBatchesWhere _ _ (markVerified (ts bn) bn ev.transactionHash)
                (fun b => rfl) id, hfind0]
            have hpR : decide (st.lastVerifiedBatchId + 1 ≤ b0.batchId ∧
                b0.batchId ≤ ev.batchId) = true := by
              rw [decide_eq_true_eq, hb0id]
              exact ⟨hlo, hhi⟩
            simp only [Option.map_some', hpR, if_true]
            by_cases hidN : (markVerified (ts bn) bn ev.transactionHash b0).batchId =
                ev.batchId
            · rw [if_pos hidN]
              by_cases hid3 : (setTransitionHash ev.blockHash
                  (markVerified (ts bn) bn ev.transactionHash b0)).batchId = ev.batchId
              · rw [if_pos hid3]
                exact ⟨_, rfl, rfl, rfl, rfl⟩
              · rw [if_neg hid3]
                exact ⟨_, rfl, rfl, rfl, rfl⟩
            · rw [if_neg hidN]
              by_cases hid3 : (markVerified (ts bn) bn ev.transactionHash b0).batchId =
                  ev.batchId
              · rw [if_pos hid3]
                exact ⟨_, rfl, rfl, rfl, rfl⟩
              · rw [if_neg hid3]
                exact ⟨_, rfl, rfl, rfl, rfl⟩
          · intro id hidN hfind0
            rw [findBatch_updateBatch _ _ (copyProofFields proof) (fun b => rfl) id,
              findBatch_updateProofById,
              findBatch_updateBatch _ _ (setTransitionHash ev.blockHash) (fun b => rfl) id,
              findBatch_updateBatchesWhere _ _ (markVerified (ts bn) bn ev.transactionHash)
                (fun b => rfl) id, hfind0]
            rfl
          · intro habs
            exact Option.noConfusion habs
  | none =>
      simp only [handleBatchesVerified, hbn, if_neg hnotle, hex, Option.isSome_none,
        Bool.false_eq_true, if_false, updateBatch_proofs, updateBatchesWhere_proofs,
        createBatch_proofs]
      cases hhit : List.find?
          (fun r => decide (r.batchId = ev.batchId ∧ r.transitionBlockHash = ev.blockHash))
          st.db.proofs with
      | none =>
          simp only [hhit]
          refine ⟨?_, ?_, ?_, by trivial⟩
          · intro id b0 hlo hhi hfind0
            have hb0id : b0.batchId = id := findBatch_batchId hfind0
            rw [findBatch_updateBatchesWhere _ _ (markVerified (ts bn) bn ev.transactionHash)
                (fun b => rfl) id, findBatch_createBatch, hfind0]
            have hpR : decide (st.lastVerifiedBatchId + 1 ≤ b0.batchId ∧
                b0.batchId ≤ ev.batchId) = true := by
              rw [decide_eq_true_eq, hb0id]
              exact ⟨hlo, hhi⟩
            simp only [Option.orElse, Option.map_some', hpR, if_true]
            exact ⟨_, rfl, rfl, rfl, rfl⟩
          · intro id hidN hfind0
            rw [findBatch_updateBatchesWhere _ _ (markVerified (ts bn) bn ev.transactionHash)
                (fun b => rfl) id, findBatch_createBatch, hfind0]
            have hrow : ((legacyVerifiedBatch ev.batchId (ts bn) bn ev.transactionHash
                ev.blockHash).batchId = id) = False := by
              simp only [legacyVerifiedBatch]
              exact eq_false (fun h => hidN h.symm)
            simp [Option.orElse, hrow]
          · intro _ hnp
            rw [findBatch_updateBatchesWhere _ _ (markVerified (ts bn) bn ev.transactionHash)
                (fun b => rfl) ev.batchId, findBatch_createBatch, hex]
            have hpR : decide (st.lastVerifiedBatchId + 1 ≤ ev.batchId ∧
                ev.batchId ≤ ev.batchId) = true := by
              rw [decide_eq_true_eq]
              exact ⟨hadv, le_refl _⟩
            refine ⟨markVerified (ts bn) bn ev.transactionHash
              (legacyVerifiedBatch ev.batchId (ts bn) bn ev.transactionHash ev.blockHash),
              ?_, rfl, rfl, rfl, rfl, rfl, rfl, rfl⟩
            simp only [Option.orElse, legacyVerifiedBatch, markVerified, hpR]
            simp
            exact fun h => absurd hadv (by omega)
      | some proof =>
          have hmem := List.mem_of_find?_eq_some hhit
          have hpred := List.find?_some hhit
          rw [decide_eq_true_eq] at hpred
          simp only [hhit]
          refine ⟨?_, ?_, ?_, by trivial⟩
          · intro id b0 hlo hhi hfind0
            have hb0id : b0.batchId = id := findBatch_batchId hfind0
            rw [findBatch_updateBatch _ _ (copyProofFields proof) (fun b => rfl) id,
              findBatch_updateProofById,
              findBatch_updateBatchesWhere _ _ (markVerified (ts bn) bn ev.transactionHash)
                (fun b => rfl) id, findBatch_createBatch, hfind0]
            have hpR : decide (st.lastVerifiedBatchId + 1 ≤ b0.batchId ∧
                b0.batchId ≤ ev.batchId) = true := by
              rw [decide_eq_true_eq, hb0id]
              exact ⟨hlo, hhi⟩
            simp only [Option.orElse, Option.map_some', hpR, if_true]
            by_cases hidN : (markVerified (ts bn) bn ev.transactionHash b0).batchId =
                ev.batchId
            · rw [if_pos hidN]
              exact ⟨_, rfl, rfl, rfl, rfl⟩
            · rw [if_neg hidN]
              exact ⟨_, rfl, rfl, rfl, rfl⟩
          · intro id hidN hfind0
            rw [findBatch_updateBatch _ _ (copyProofFields proof) (fun b => rfl) id,
              findBatch_updateProofById,
              findBatch_updateBatchesWhere _ _ (markVerified (ts bn) bn ev.transactionHash)
                (fun b => rfl) id, findBatch_createBatch, hfind0]
            have hrow : ((legacyVerifiedBatch ev.batchId (ts bn) bn ev.transactionHash
                ev.blockHash).batchId = id) = False := by
              simp only [legacyVerifiedBatch]
              exact eq_false (fun h => hidN h.symm)
            simp [Option.orElse, hrow]
          · intro _ hnp
            exact absurd ⟨hpred.1, hpred.2⟩ (hnp proof hmem)

/-- Witness for `handleBatchesVerified_range`: verifying up to batch 2 from
cursor 0 on an empty store advances the cursor and creates no row for the
unobserved intermediate id 1. -/
theorem handleBatchesVerified_range_witness :
    (handleBatchesVerified emptyState
        { batchId := 2, blockHash := "0xw", blockNumber := some 95,
          transactionHash := some "0xt" }
        (fun _ => 1000)).lastVerifiedBatchId = 2 ∧
      findBatch (handleBatchesVerified emptyState
        { batchId := 2, blockHash := "0xw", blockNumber := some 95,
          transactionHash := some "0xt" }
        (fun _ => 1000)).db 1 = none := by
  have h := handleBatchesVerified_range emptyState
    { batchId := 2, blockHash := "0xw", blockNumber := some 95,
      transactionHash := some "0xt" }
    (fun _ => 1000) 95 rfl (by decide)
  exact ⟨h.2.2.2, h.2.1 1 (by decide) rfl⟩

/-! ## C5 (amended) — checkpoint failure semantics -/

/-- C5 (amended): a checkpoint on a cursor row that no longer carries the
run's lock token throws `"Indexer lock lost or expired"`; releasing with a
mismatched token changes nothing; failure messages are truncated to at most
2000 characters; the chunk loop only ever aborts with the lock-lost error and
leaves a cursor row that does not carry the run's token; and `runIndexing`
then re-raises that error after invoking the (no-op) failed release — so the
run performs no further cursor writes past the failed checkpoint. -/
theorem checkpoint_lockLoss_aborts :
    (∀ (row : Option IndexingStateRow) (chainId : Nat) (lockId : String)
        (b t ttl : Nat),
      (∀ r, row = some r → ¬ (r.chainId = chainId ∧ r.lockId = some lockId)) →
      checkpointIndexingProgress row chainId lockId b t ttl =
        Except.error "Indexer lock lost or expired") ∧
    (∀ (r : IndexingStateRow) (chainId : Nat) (lockId status err : String) (t : Nat),
      ¬ (r.chainId = chainId ∧ r.lockId = some lockId) →
      releaseIndexingLock (some r) chainId lockId status err t = some r) ∧
    (∀ msg : String, (formatError msg).length ≤ 2000) ∧
    (∀ (env : RunEnv) (chunks : List (Nat × Nat)) (i : Nat) (sys : SysState)
        (processed : Nat) (sys1 : SysState) (e : String),
      runChunks env chunks i sys processed = (sys1, Except.error e) →
      e = "Indexer lock lost or expired" ∧
        (sys1.row = none ∨ ∃ r, sys1.row = some r ∧
          ¬ (r.chainId = env.chainId ∧ r.lockId = some env.lockUuid))) ∧
    (∀ (env : RunEnv) (sys : SysState) (row1 : IndexingStateRow) (lp : Nat)
        (sys1 : SysState) (e : String),
      acquireIndexingLock sys.row env.chainId
          (env.startBlockCfg.getD (safeBlockOf env.latestBlock env.confirmations))
          env.lockUuid env.ttlSeconds env.startTime = some (row1, lp) →
      ¬ (safeBlockOf env.latestBlock env.confirmations ≤
          fromBlockOf lp env.reorgBuffer
            (env.startBlockCfg.getD (safeBlockOf env.latestBlock env.confirmations))) →
      runChunks env
          (chunkList
            (fromBlockOf lp env.reorgBuffer
              (env.startBlockCfg.getD (safeBlockOf env.latestBlock env.confirmations)))
            (safeBlockOf env.latestBlock env.confirmations) env.chunkSize)
          0 { row := some row1, ixr := sys.ixr } 0 = (sys1, Except.error e) →
      runIndexing env sys =
        ({ row := releaseIndexingLock sys1.row env.chainId env.lockUuid "failed" e
             env.finishTime, ixr := sys1.ixr }, Except.error e)) := by
  refine ⟨?_, ?_, ?_, ?_, ?_⟩
  · intro row chainId lockId b t ttl h
    cases row with
    | none => rfl
    | some r => simp only [checkpointIndexingProgress, if_neg (h r rfl)]
  · intro r chainId lockId status err t h
    simp only [releaseIndexingLock, if_neg h]
  · intro msg
    show (msg.data.take 2000).length ≤ 2000
    simp [List.length_take]
  · intro env chunks
    induction chunks with
    | nil =>
        intro i sys processed sys1 e h
        simp only [runChunks] at h
        exact Except.noConfusion (congrArg Prod.snd h)
    | cons ct rest ih =>
        intro i sys processed sys1 e h
        obtain ⟨c, t⟩ := ct
        simp only [runChunks] at h
        cases hrow : env.interfere i sys.row with
        | none =>
            rw [hrow] at h
            simp only [checkpointIndexingProgress] at h
            have h2 := congrArg Prod.snd h
            have h1 := congrArg Prod.fst h
            simp only at h1 h2
            cases h2
            exact ⟨rfl, Or.inl (by rw [← h1])⟩
        | some r =>
            rw [hrow] at h
            by_cases hc : r.chainId = env.chainId ∧ r.lockId = some env.lockUuid
            · simp only [checkpointIndexingProgress, if_pos hc] at h
              exact ih _ _ _ _ _ h
            · simp only [checkpointIndexingProgress, if_neg hc] at h
              have h2 := congrArg Prod.snd h
              have h1 := congrArg Prod.fst h
              simp only at h1 h2
              cases h2
              exact ⟨rfl, Or.inr ⟨r, by rw [← h1], hc⟩⟩
  · intro env sys row1 lp sys1 e hacq hlt hrc
    simp only [runIndexing, hacq, if_neg hlt, hrc]

/-- Witness for `checkpoint_lockLoss_aborts`: on a taken-over row the
checkpoint throws, the failed release changes nothing, and the recorded
message is within the 2000-character bound. -/
theorem checkpoint_lockLoss_aborts_witness :
    checkpointIndexingProgress (some c5TakenRow) 1 "L1" 60 2000 30 =
        Except.error "Indexer lock lost or expired" ∧
      releaseIndexingLock (some c5TakenRow) 1 "L1" "failed" "boom" 3000 =
        some c5TakenRow ∧
      (formatError "boom").length ≤ 2000 := by
  have h := checkpoint_lockLoss_aborts
  refine ⟨h.1 (some c5TakenRow) 1 "L1" 60 2000 30 ?_,
    h.2.1 c5TakenRow 1 "L1" "failed" "boom" 3000 (by decide),
    h.2.2.1 "boom"⟩
  intro r hr
  cases hr
  decide

/-! ## C9 — classification union -/

/-- Membership after a JS `Set.add`. -/
theorem addSystem_mem (systems : List ProofSystem) (s x : ProofSystem) :
    x ∈ addSystem systems s ↔ x ∈ systems ∨ x = s := by
  by_cases h : s ∈ systems
  · simp only [addSystem, if_pos h]
    constructor
    · exact Or.inl
    · rintro (hx | rfl)
      · exact hx
      · exact h
  · simp [addSystem, if_neg h]

/-- `Set.add` keeps the list duplicate-free. -/
theorem addSystem_nodup (systems : List ProofSystem) (s : ProofSystem)
    (h : systems.Nodup) : (addSystem systems s).Nodup := by
  by_cases hs : s ∈ systems
  · simpa [addSystem, hs] using h
  · simp [addSystem, hs, List.nodup_append, h]

/-- Membership after one loop body step of `getSystemsFor`. -/
theorem addSystemsFor_mem (reg : VerifierRegistry) (systems : List ProofSystem)
    (a : String) (x : ProofSystem) :
    x ∈ addSystemsFor reg systems a ↔ x ∈ systems ∨ x ∈ mappedSystems reg a := by
  unfold addSystemsFor mappedSystems
  by_cases h1 : lowerString a ∈ reg.tee <;>
    by_cases h2 : lowerString a ∈ reg.sp1 <;>
      by_cases h3 : lowerString a ∈ reg.risc0 <;>
        simp [h1, h2, h3, addSystem_mem] <;> tauto

/-- One loop body step of `getSystemsFor` keeps the list duplicate-free. -/
theorem addSystemsFor_nodup (reg : VerifierRegistry) (systems : List ProofSystem)
    (a : String) (h : systems.Nodup) : (addSystemsFor reg systems a).Nodup := by
  unfold addSystemsFor
  by_cases h1 : lowerString a ∈ reg.tee <;>
    by_cases h2 : lowerString a ∈ reg.sp1 <;>
      by_cases h3 : lowerString a ∈ reg.risc0 <;>
        simp only [h1, h2, h3, if_true, if_false] <;>
          repeat' apply addSystem_nodup
  all_goals exact h

/-- `getSystemsFor`'s fold, characterized over any accumulator. -/
theorem getSystemsFor_go (reg : VerifierRegistry) (addresses : List String) :
    ∀ acc : List ProofSystem, acc.Nodup →
      (addresses.foldl (addSystemsFor reg) acc).Nodup ∧
        ∀ x, x ∈ addresses.foldl (addSystemsFor reg) acc ↔
          x ∈ acc ∨ ∃ a ∈ addresses, x ∈ mappedSystems reg a := by
  induction addresses with
  | nil =>
      intro acc hacc
      exact ⟨hacc, fun x => by simp⟩
  | cons hd tl ih =>
      intro acc hacc
      obtain ⟨hn, hm⟩ := ih (addSystemsFor reg acc hd) (addSystemsFor_nodup reg acc hd hacc)
      refine ⟨hn, fun x => ?_⟩
      rw [List.foldl_cons, hm x, addSystemsFor_mem]
      simp only [List.mem_cons]
      constructor
      · rintro ((hx | hx) | ⟨a, ha, hx⟩)
        · exact Or.inl hx
        · exact Or.inr ⟨hd, Or.inl rfl, hx⟩
        · exact Or.inr ⟨a, Or.inr ha, hx⟩
      · rintro (hx | ⟨a, (rfl | ha), hx⟩)
        · exact Or.inl (Or.inl hx)
        · exact Or.inl (Or.inr hx)
        · exact Or.inr ⟨a, ha, hx⟩

/-- `getSystemsFor` returns exactly the duplicate-free union of the systems
mapped to the normalized addresses. -/
theorem getSystemsFor_spec (reg : VerifierRegistry) (addresses : List String) :
    (getSystemsFor reg addresses).Nodup ∧
      ∀ x, x ∈ getSystemsFor reg addresses ↔
        ∃ a ∈ addresses, x ∈ mappedSystems reg a := by
  obtain ⟨hn, hm⟩ := getSystemsFor_go reg addresses [] List.nodup_nil
  exact ⟨hn, fun x => by rw [getSystemsFor, hm x]; simp⟩

/-- C9: when the proof payload decodes to sub-proofs, `classifyProof` returns
the duplicate-free union of the proof systems mapped (after lowercasing) to
the sub-verifier addresses under the possibly-hydrated registry it returns;
otherwise it classifies the top-level verifier address alone; and when no
checked address has a mapping the proof-system list is empty (the call is a
total function — it cannot throw). -/
theorem classifyProof_union (reg : VerifierRegistry)
    (chainRead : String → Option ComposeInfo) (verifierAddress : String)
    (proofData : Option ProofData) :
    (∀ s, s ∈ (classifyProof reg chainRead verifierAddress proofData).1.1 ↔
      ∃ a ∈ (if (match proofData with
                 | some d => decodeSubVerifiers d
                 | none => []).length ≠ 0
             then (match proofData with
                   | some d => decodeSubVerifiers d
                   | none => [])
             else [verifierAddress]),
        s ∈ mappedSystems (classifyProof reg chainRead verifierAddress proofData).2 a) ∧
    ((classifyProof reg chainRead verifierAddress proofData).1.1).Nodup ∧
    ((∀ a ∈ (if (match proofData with
                 | some d => decodeSubVerifiers d
                 | none => []).length ≠ 0
             then (match proofData with
                   | some d => decodeSubVerifiers d
                   | none => [])
             else [verifierAddress]),
        mappedSystems (classifyProof reg chainRead verifierAddress proofData).2 a = []) →
      (classifyProof reg chainRead verifierAddress proofData).1.1 = []) := by
  simp only [classifyProof]
  obtain ⟨hn, hm⟩ := getSystemsFor_spec
    (if hasMappingFor reg (lowerString verifierAddress) then reg
     else hydrateComposeVerifier reg chainRead verifierAddress)
    (if (match proofData with
         | some d => decodeSubVerifiers d
         | none => []).length ≠ 0
     then (match proofData with
           | some d => decodeSubVerifiers d
           | none => [])
     else [verifierAddress])
  refine ⟨hm, hn, fun hempty => ?_⟩
  rw [List.eq_nil_iff_forall_not_mem]
  intro s hs
  obtain ⟨a, ha, hsa⟩ := (hm s).mp hs
  rw [hempty a ha] at hsa
  cases hsa

/-- Witness for `classifyProof_union`: a compose proof whose two sub-verifiers
map to TEE and SP1 classifies as `[TEE, SP1]`, duplicate-free. -/
theorem classifyProof_union_witness :
    (classifyProof
        { tee := ["0xaa"], sp1 := ["0xbb"], risc0 := [], teeVariants := []
          composeCache := [] }
        (fun _ => none) "0xCC" (some (some ["0xAA", "0xBB"]))).1.1 =
      [ProofSystem.TEE, ProofSystem.SP1] ∧
    ((classifyProof
        { tee := ["0xaa"], sp1 := ["0xbb"], risc0 := [], teeVariants := []
          composeCache := [] }
        (fun _ => none) "0xCC" (some (some ["0xAA", "0xBB"]))).1.1).Nodup :=
  ⟨by decide,
    (classifyProof_union
      { tee := ["0xaa"], sp1 := ["0xbb"], risc0 := [], teeVariants := []
        composeCache := [] }
      (fun _ => none) "0xCC" (some (some ["0xAA", "0xBB"]))).2.1⟩

/-! ## C8 — adaptive log fetching covers the range exactly once -/

/-- `QDisjoint` is symmetric. -/
theorem qdisjoint_symm : Symmetric QDisjoint := by
  intro r r' h b hb
  exact h b ⟨hb.2, hb.1⟩

/-- Coverage distributes over append. -/
theorem covers_append (l1 l2 : List QueueRange) (b : Nat) :
    covers (l1 ++ l2) b ↔ covers l1 b ∨ covers l2 b := by
  simp only [covers, List.mem_append]
  constructor
  · rintro ⟨r, (h | h), hr⟩
    · exact Or.inl ⟨r, h, hr⟩
    · exact Or.inr ⟨r, h, hr⟩
  · rintro (⟨r, h, hr⟩ | ⟨r, h, hr⟩)
    · exact ⟨r, Or.inl h, hr⟩
    · exact ⟨r, Or.inr h, hr⟩

/-- Coverage distributes over cons. -/
theorem covers_cons (r : QueueRange) (l : List QueueRange) (b : Nat) :
    covers (r :: l) b ↔ inQRange r b ∨ covers l b := by
  simp only [covers, List.mem_cons]
  constructor
  · rintro ⟨x, (rfl | h), hx⟩
    · exact Or.inl hx
    · exact Or.inr ⟨x, h, hx⟩
  · rintro (h | ⟨x, h, hx⟩)
    · exact ⟨r, Or.inl rfl, h⟩
    · exact ⟨x, Or.inr h, hx⟩

/-- `splitRanges` partitions `[lo, hi]` into pairwise-disjoint pieces of
width at most `maxRange`, each inside `[lo, hi]`. -/
theorem splitRanges_spec (maxRange : Nat) (hL : 1 ≤ maxRange) :
    ∀ (n lo hi : Nat), hi + 1 - lo ≤ n →
      (∀ b, covers (splitRanges lo hi maxRange) b ↔ lo ≤ b ∧ b ≤ hi) ∧
        (splitRanges lo hi maxRange).Pairwise QDisjoint ∧
        (∀ r ∈ splitRanges lo hi maxRange,
          lo ≤ r.fromBlock ∧ r.toBlock ≤ hi ∧ r.toBlock + 1 ≤ r.fromBlock + maxRange) := by
  intro n
  induction n with
  | zero =>
      intro lo hi hn
      have hlh : lo > hi := by omega
      rw [splitRanges]
      rw [if_neg (by omega : ¬ maxRange = 0), dif_pos hlh]
      refine ⟨fun b => ?_, List.Pairwise.nil, by simp⟩
      simp only [covers]
      constructor
      · rintro ⟨r, h, -⟩
        exact absurd h (List.not_mem_nil r)
      · rintro ⟨h1, h2⟩
        omega
  | succ n ih =>
      intro lo hi hn
      rw [splitRanges, if_neg (by omega : ¬ maxRange = 0)]
      by_cases hlh : lo > hi
      · rw [dif_pos hlh]
        refine ⟨fun b => ?_, List.Pairwise.nil, by simp⟩
        simp only [covers]
        constructor
        · rintro ⟨r, h, -⟩
          exact absurd h (List.not_mem_nil r)
        · rintro ⟨h1, h2⟩
          omega
      · rw [dif_neg hlh]
        have hle : lo ≤ hi := le_of_not_lt hlh
        have he1 : lo ≤ min (lo + maxRange - 1) hi := le_min (by omega) hle
        have he2 : min (lo + maxRange - 1) hi ≤ hi := min_le_right _ _
        have he3 : min (lo + maxRange - 1) hi ≤ lo + maxRange - 1 := min_le_left _ _
        obtain ⟨ihc, ihp, ihb⟩ := ih (min (lo + maxRange - 1) hi + 1) hi (by omega)
        refine ⟨fun b => ?_, ?_, ?_⟩
        · rw [covers_cons, ihc b]
          simp only [inQRange]
          omega
        · refine List.Pairwise.cons (fun r hr => ?_) ihp
          obtain ⟨hb1, hb2, hb3⟩ := ihb r hr
          intro b hb
          simp only [inQRange] at hb
          omega
        · intro r hr
          rcases List.mem_cons.mp hr with rfl | hr
          · refine ⟨le_refl _, he2, ?_⟩
            show min (lo + maxRange - 1) hi + 1 ≤ lo + maxRange
            omega
          · obtain ⟨hb1, hb2, hb3⟩ := ihb r hr
            exact ⟨by omega, hb2, hb3⟩

/-- Sub-ranges enqueued at the tail may be rotated to the front of the
family. -/
theorem perm_rotate_pieces (pieces rest fetched : List QueueRange) :
    ((rest ++ pieces) ++ fetched).Perm (pieces ++ (rest ++ fetched)) := by
  have h1 : ((rest ++ pieces) ++ fetched).Perm ((pieces ++ rest) ++ fetched) :=
    List.Perm.append_right fetched List.perm_append_comm
  have h2 : (pieces ++ rest) ++ fetched = pieces ++ (rest ++ fetched) :=
    List.append_assoc _ _ _
  rw [h2] at h1
  exact h1

/-- A fetched range appended to the results may be rotated to the front. -/
theorem perm_fetch_success (range : QueueRange) (rest fetched : List QueueRange) :
    (rest ++ (fetched ++ [range])).Perm ([range] ++ (rest ++ fetched)) := by
  have h1 : rest ++ (fetched ++ [range]) = (rest ++ fetched) ++ [range] :=
    (List.append_assoc _ _ _).symm
  rw [h1]
  exact List.perm_append_comm

/-- Replacing the queue head by pieces that partition exactly its span (in any
position of the family) preserves the invariant. -/
theorem fetchInv_of_perm (fromBlock toBlock : Nat) (range : QueueRange)
    (rest fetched : List QueueRange) (lim : Option Nat)
    (hinv : FetchInv fromBlock toBlock ⟨range :: rest, fetched, lim⟩)
    (pieces : List QueueRange)
    (hcov : ∀ b, covers pieces b ↔ inQRange range b)
    (hpw : pieces.Pairwise QDisjoint)
    (hsub : ∀ r ∈ pieces, ∀ b, inQRange r b → inQRange range b)
    (s' : FetchState)
    (hperm : (s'.queue ++ s'.fetched).Perm (pieces ++ (rest ++ fetched)))
    (hlim : ∀ l, s'.logRangeLimit = some l → 1 ≤ l) :
    FetchInv fromBlock toBlock s' := by
  obtain ⟨hc, hp, -⟩ := hinv
  have hcons : ((range :: rest) ++ fetched : List QueueRange) =
      range :: (rest ++ fetched) := rfl
  refine ⟨fun b => ?_, ?_, hlim⟩
  · have hmem : covers (s'.queue ++ s'.fetched) b ↔
        covers (pieces ++ (rest ++ fetched)) b := by
      constructor
      · rintro ⟨r, hr, hb⟩
        exact ⟨r, hperm.mem_iff.mp hr, hb⟩
      · rintro ⟨r, hr, hb⟩
        exact ⟨r, hperm.mem_iff.mpr hr, hb⟩
    have horig := hc b
    rw [hcons, covers_cons] at horig
    rw [hmem, covers_append, hcov b]
    exact horig
  · rw [hperm.pairwise_iff (fun {x y} h => qdisjoint_symm h)]
    have hp' : (range :: (rest ++ fetched)).Pairwise QDisjoint := by
      rw [← hcons]
      exact hp
    rw [List.pairwise_cons] at hp'
    rw [List.pairwise_append]
    refine ⟨hpw, hp'.2, fun x hx y hy b hb => ?_⟩
    exact hp'.1 y hy b ⟨hsub x hx b hb.1, hb.2⟩

/-- The `try`/`catch` body of `getLogsSafe` preserves the invariant. -/
theorem getLogsAttempt_inv (oracle : QueueRange → FetchOutcome)
    (fromBlock toBlock : Nat) (s : FetchState) (range : QueueRange)
    (rest : List QueueRange) (hq : s.queue = range :: rest)
    (h : FetchInv fromBlock toBlock s) :
    FetchInv fromBlock toBlock (stateOf (getLogsAttempt oracle s range rest)) := by
  have hinv : FetchInv fromBlock toBlock ⟨range :: rest, s.fetched, s.logRangeLimit⟩ := by
    rw [← hq]
    exact h
  unfold getLogsAttempt
  cases horacle : oracle range with
  | success =>
      refine fetchInv_of_perm fromBlock toBlock range rest s.fetched s.logRangeLimit
        hinv [range] (fun b => by simp [covers]) (List.pairwise_cons.mpr ⟨by simp, List.Pairwise.nil⟩)
        (fun r hr b hb => by
          rcases List.mem_singleton.mp hr with rfl
          exact hb)
        _ (perm_fetch_success range rest s.fetched) h.2.2
  | failure isRangeError hint isRateLimit =>
      dsimp only
      by_cases hwide : isRangeError = true ∧ range.fromBlock < range.toBlock
      · rw [if_pos hwide]
        have hlohi : range.fromBlock < range.toBlock := hwide.2
        have hbisect : FetchInv fromBlock toBlock
            { s with queue := ⟨range.fromBlock, (range.fromBlock + range.toBlock) / 2, 0⟩ ::
                ⟨(range.fromBlock + range.toBlock) / 2 + 1, range.toBlock, 0⟩ :: rest } := by
          have hmid1 : range.fromBlock ≤ (range.fromBlock + range.toBlock) / 2 := by omega
          have hmid2 : (range.fromBlock + range.toBlock) / 2 < range.toBlock := by omega
          refine fetchInv_of_perm fromBlock toBlock range rest s.fetched s.logRangeLimit
            hinv [⟨range.fromBlock, (range.fromBlock + range.toBlock) / 2, 0⟩,
              ⟨(range.fromBlock + range.toBlock) / 2 + 1, range.toBlock, 0⟩]
            (fun b => ?_) ?_ (fun r hr b hb => ?_) _ (List.Perm.refl _) h.2.2
          · rw [covers_cons, covers_cons]
            simp only [covers, List.not_mem_nil, false_and, exists_false, or_false,
              inQRange]
            show (range.fromBlock ≤ b ∧ b ≤ _) ∨ (_ ≤ b ∧ b ≤ range.toBlock) ↔ _
            omega
          · refine List.pairwise_cons.mpr ⟨fun y hy b hb => ?_,
              List.pairwise_cons.mpr ⟨by simp, List.Pairwise.nil⟩⟩
            rcases List.mem_singleton.mp hy with rfl
            obtain ⟨⟨h1, h2⟩, ⟨h3, h4⟩⟩ := hb
            simp only at h2 h3
            omega
          · rcases List.mem_cons.mp hr with rfl | hr
            · obtain ⟨h1, h2⟩ := hb
              simp only at h2
              exact ⟨h1, by omega⟩
            · rcases List.mem_singleton.mp hr with rfl
              obtain ⟨h1, h2⟩ := hb
              simp only at h1
              exact ⟨by omega, h2⟩
        cases hint with
        | some limit =>
            dsimp only
            by_cases hpos : limit > 0
            · rw [if_pos hpos]
              obtain ⟨hcovS, hpwS, hbS⟩ := splitRanges_spec limit hpos
                (range.toBlock + 1 - range.fromBlock) range.fromBlock range.toBlock
                (le_refl _)
              refine fetchInv_of_perm fromBlock toBlock range rest s.fetched
                s.logRangeLimit hinv
                (splitRanges range.fromBlock range.toBlock limit)
                (fun b => hcovS b) hpwS
                (fun r hr b hb => ?_) _ ?_ ?_
              · obtain ⟨h1, h2, -⟩ := hbS r hr
                exact ⟨le_trans h1 hb.1, le_trans hb.2 h2⟩
              · exact perm_rotate_pieces
                  (splitRanges range.fromBlock range.toBlock limit) rest s.fetched
              · intro l hl
                cases hl
                exact hpos
            · rw [if_neg hpos]
              exact hbisect
        | none => exact hbisect
      · rw [if_neg hwide]
        by_cases hrate : isRateLimit = true ∧ range.attempts < 6
        · rw [if_pos hrate]
          refine fetchInv_of_perm fromBlock toBlock range rest s.fetched s.logRangeLimit
            hinv [{ range with attempts := range.attempts + 1 }]
            (fun b => by simp [covers, inQRange]) ?_
            (fun r hr b hb => by
              rcases List.mem_singleton.mp hr with rfl
              exact hb)
            _ (List.Perm.refl _) h.2.2
          exact List.pairwise_cons.mpr ⟨by simp, List.Pairwise.nil⟩
        · rw [if_neg hrate]
          exact h

/-- One `getLogsSafe` iteration preserves the invariant. -/
theorem getLogsStep_inv (oracle : QueueRange → FetchOutcome)
    (fromBlock toBlock : Nat) (s : FetchState)
    (h : FetchInv fromBlock toBlock s) :
    FetchInv fromBlock toBlock (stateOf (getLogsStep oracle s)) := by
  cases hq : s.queue with
  | nil =>
      simp only [getLogsStep, hq]
      exact h
  | cons range rest =>
      simp only [getLogsStep, hq]
      cases hlim : s.logRangeLimit with
      | none =>
          simp only [Bool.false_eq_true, if_false]
          exact getLogsAttempt_inv oracle fromBlock toBlock s range rest hq h
      | some l =>
          by_cases hwide : range.toBlock - range.fromBlock + 1 > l
          · have hl1 : 1 ≤ l := h.2.2 l hlim
            simp only [decide_eq_true_eq]
            rw [if_pos hwide]
            have hinv : FetchInv fromBlock toBlock
                ⟨range :: rest, s.fetched, s.logRangeLimit⟩ := by
              rw [← hq]
              exact h
            obtain ⟨hcovS, hpwS, hbS⟩ := splitRanges_spec l hl1
              (range.toBlock + 1 - range.fromBlock) range.fromBlock range.toBlock
              (le_refl _)
            refine fetchInv_of_perm fromBlock toBlock range rest s.fetched
              s.logRangeLimit hinv (splitRanges range.fromBlock range.toBlock l)
              (fun b => hcovS b) hpwS (fun r hr b hb => ?_) _
              (perm_rotate_pieces (splitRanges range.fromBlock range.toBlock l)
                rest s.fetched)
              (fun l2 hl2 => by
                cases hl2
                exact hl1)
            obtain ⟨h1, h2, -⟩ := hbS r hr
            exact ⟨le_trans h1 hb.1, le_trans hb.2 h2⟩
          · simp only [decide_eq_true_eq]
            rw [if_neg hwide]
            exact getLogsAttempt_inv oracle fromBlock toBlock s range rest hq h

/-- Any number of `getLogsSafe` iterations preserves the invariant. -/
theorem getLogsIter_inv (oracle : QueueRange → FetchOutcome)
    (fromBlock toBlock : Nat) (n : Nat) (s : FetchState)
    (h : FetchInv fromBlock toBlock s) :
    FetchInv fromBlock toBlock (getLogsIter oracle n s) := by
  induction n generalizing s with
  | zero => exact h
  | succ n ih =>
      have hstep := getLogsStep_inv oracle fromBlock toBlock s h
      cases hres : getLogsStep oracle s with
      | next s' =>
          rw [hres] at hstep
          simpa [getLogsIter, hres] using ih s' hstep
      | done s' =>
          rw [hres] at hstep
          simpa [getLogsIter, hres] using hstep
      | thrown s' =>
          rw [hres] at hstep
          simpa [getLogsIter, hres] using hstep

/-- C8: throughout every `getLogsSafe(event, from, to)` execution — across
pre-splits, hinted splits, bisections and rate-limit retries — the pending
queue ranges together with the fetched ranges form a pairwise-disjoint family
covering exactly `[from, to]`; hence when the queue empties, the fetched
ranges cover every block of `[from, to]` exactly once; and every sub-range
produced by `enqueueRanges` with limit `maxRange ≥ 1` has width at most
`maxRange`. -/
theorem getLogsSafe_partition (oracle : QueueRange → FetchOutcome)
    (fromBlock toBlock : Nat) (limit : Option Nat)
    (hlimit : ∀ l, limit = some l → 1 ≤ l) :
    (∀ n, FetchInv fromBlock toBlock
        (getLogsIter oracle n (initFetchState limit fromBlock toBlock))) ∧
    (∀ n, (getLogsIter oracle n (initFetchState limit fromBlock toBlock)).queue = [] →
      (∀ b, covers
          (getLogsIter oracle n (initFetchState limit fromBlock toBlock)).fetched b ↔
          (fromBlock ≤ b ∧ b ≤ toBlock)) ∧
        ((getLogsIter oracle n
          (initFetchState limit fromBlock toBlock)).fetched).Pairwise QDisjoint) ∧
    (∀ (queue : List QueueRange) (lo hi maxRange : Nat), 1 ≤ maxRange →
      ∀ r ∈ enqueueRanges queue lo hi maxRange, r ∈ queue ∨
        (lo ≤ r.fromBlock ∧ r.toBlock ≤ hi ∧
          r.toBlock + 1 ≤ r.fromBlock + maxRange)) := by
  have hinit : FetchInv fromBlock toBlock (initFetchState limit fromBlock toBlock) := by
    refine ⟨fun b => ?_, ?_, hlimit⟩
    · rw [show (initFetchState limit fromBlock toBlock).queue ++
          (initFetchState limit fromBlock toBlock).fetched =
            [⟨fromBlock, toBlock, 0⟩] from rfl, covers_cons]
      simp only [covers, inQRange]
      constructor
      · rintro (h | ⟨r, hr, -⟩)
        · exact h
        · exact absurd hr (List.not_mem_nil r)
      · exact Or.inl
    · show List.Pairwise QDisjoint [⟨fromBlock, toBlock, 0⟩]
      exact List.pairwise_cons.mpr
        ⟨fun a ha => absurd ha (List.not_mem_nil a), List.Pairwise.nil⟩
  have hiter : ∀ n, FetchInv fromBlock toBlock
      (getLogsIter oracle n (initFetchState limit fromBlock toBlock)) :=
    fun n => getLogsIter_inv oracle fromBlock toBlock n _ hinit
  refine ⟨hiter, fun n hq => ?_, fun queue lo hi maxRange hmr r hr => ?_⟩
  · obtain ⟨hc, hp, -⟩ := hiter n
    rw [hq] at hc hp
    exact ⟨fun b => hc b, hp⟩
  · rcases List.mem_append.mp hr with hq2 | hs
    · exact Or.inl hq2
    · obtain ⟨-, -, hb⟩ := splitRanges_spec maxRange hmr (hi + 1 - lo) lo hi (le_refl _)
      exact Or.inr (hb r hs)

/-- Witness for `getLogsSafe_partition`: a run on `[0, 1]` that fetches in one
attempt empties its queue with the fetched ranges covering exactly `[0, 1]`. -/
theorem getLogsSafe_partition_witness :
    ((getLogsIter (fun _ => FetchOutcome.success) 5 (initFetchState none 0 1)).queue
        = []) ∧
      (∀ b, covers
          (getLogsIter (fun _ => FetchOutcome.success) 5
            (initFetchState none 0 1)).fetched b ↔ (0 ≤ b ∧ b ≤ 1)) :=
  ⟨rfl, fun b =>
    ((getLogsSafe_partition (fun _ => FetchOutcome.success) 0 1 none
      (fun l hl => by cases hl)).2.1 5 rfl).1 b⟩

end TaikoProofs
